import Mathlib

/-!
Verification of the layeredGraphLayouter pipeline against its specification.

Each namespace below is a shallow embedding of one source file of the
repository.  Python floats are modelled as rationals, Python lists as Lean
lists, Python in-place mutation as explicit state passing, and Python
exceptions as `Except` results.  Node, port and edge objects are identified
by natural-number ids; object attribute tables become finite maps or fields
of explicit state structures.
-/

namespace LayeredGraphLayouter

/-! ## MinWidth layerer (`minWidthLayerer.py`) -/

namespace MinWidth

/-- Module constant `LAYERING_MIN_WIDTH_UPPER_BOUND_ON_WIDTH = 10`. -/
def LAYERING_MIN_WIDTH_UPPER_BOUND_ON_WIDTH : Int := 10

/-- Module constant `LAYERING_MIN_WIDTH_UPPER_LAYER_ESTIMATION_SCALING_FACTOR = 1`. -/
def LAYERING_MIN_WIDTH_UPPER_LAYER_ESTIMATION_SCALING_FACTOR : Int := 1

/-- Module constant `UPPERBOUND_ON_WIDTH_RANGE = (1, 4)`. -/
def UPPERBOUND_ON_WIDTH_RANGE : Int × Int := (1, 4)

/-- Module constant `COMPENSATOR_RANGE = (1, 2)`. -/
def COMPENSATOR_RANGE : Int × Int := (1, 2)

/-- Python `range(a, b + 1)` over integers, i.e. the inclusive list `[a..b]`. -/
def intRangeIncl (a b : Int) : List Int :=
  (List.range (b + 1 - a).toNat).map (fun i => a + i)

/-- The `(ubw, c)` pairs enumerated by the nested for-loop in
`MinWidthLayerer.process`: the configured values are used verbatim unless
they are negative, in which case the recommended ranges are substituted. -/
def minWidthPairs (upperBoundOnWidth compensator : Int) : List (Int × Int) :=
  let ubwStart := if upperBoundOnWidth < 0 then UPPERBOUND_ON_WIDTH_RANGE.1 else upperBoundOnWidth
  let ubwEnd := if upperBoundOnWidth < 0 then UPPERBOUND_ON_WIDTH_RANGE.2 else upperBoundOnWidth
  let cStart := if compensator < 0 then COMPENSATOR_RANGE.1 else compensator
  let cEnd := if compensator < 0 then COMPENSATOR_RANGE.2 else compensator
  (intRangeIncl ubwStart ubwEnd).flatMap
    (fun ubw => (intRangeIncl cStart cEnd).map (fun c => (ubw, c)))

/-- A candidate layering as returned by `computeMinWidthLayering`: its
`maxWidth` (a float, modelled as a rational) and the layer lists themselves
(bottom-up, lists of node ids). -/
abbrev Candidate := ℚ × List (List Nat)

/-- The comparison key `(maxWidth, number of layers)` of a stored candidate. -/
def keyOf (e : ℚ × Nat × List (List Nat)) : ℚ × Nat := (e.1, e.2.1)

/-- The entry stored for a freshly computed candidate. -/
def entryOf (r : Candidate) : ℚ × Nat × List (List Nat) := (r.1, r.2.length, r.2)

/-- The replacement test of `MinWidthLayerer.process`: the new candidate `r`
beats the stored key `k` if it is narrower, or equally wide with fewer
layers. -/
def improves (r : Candidate) (k : ℚ × Nat) : Prop :=
  r.1 < k.1 ∨ (r.1 = k.1 ∧ r.2.length < k.2)

instance (r : Candidate) (k : ℚ × Nat) : Decidable (improves r k) := by
  unfold improves; infer_instance

/-- Lexicographic comparison of candidate keys (width, then layer count). -/
def keyLe (a b : ℚ × Nat) : Prop :=
  a.1 < b.1 ∨ (a.1 = b.1 ∧ a.2 ≤ b.2)

theorem keyLe_refl (a : ℚ × Nat) : keyLe a a := Or.inr ⟨rfl, le_refl _⟩

theorem keyLe_trans {a b c : ℚ × Nat} (h1 : keyLe a b) (h2 : keyLe b c) : keyLe a c := by
  rcases h1 with h1 | ⟨h1, h1n⟩ <;> rcases h2 with h2 | ⟨h2, h2n⟩
  · exact Or.inl (lt_trans h1 h2)
  · exact Or.inl (h2 ▸ h1)
  · exact Or.inl (h1 ▸ h2)
  · exact Or.inr ⟨h1.trans h2, le_trans h1n h2n⟩

theorem not_improves_iff (r : Candidate) (k : ℚ × Nat) :
    ¬improves r k ↔ keyLe k (r.1, r.2.length) := by
  unfold improves keyLe
  dsimp only
  constructor
  · intro h
    rcases lt_trichotomy k.1 r.1 with hlt | heq | hgt
    · exact Or.inl hlt
    · refine Or.inr ⟨heq, ?_⟩
      by_contra hn
      exact h (Or.inr ⟨heq.symm, by omega⟩)
    · exact absurd (Or.inl hgt) h
  · intro h hc
    rcases hc with hc | ⟨hceq, hcn⟩
    · rcases h with h | ⟨h, _⟩
      · exact absurd (lt_trans hc h) (lt_irrefl _)
      · exact absurd (h ▸ hc) (lt_irrefl _)
    · rcases h with h | ⟨h, hn⟩
      · exact absurd (hceq ▸ h) (lt_irrefl _)
      · omega

theorem improves_keyLe {r : Candidate} {k : ℚ × Nat} (h : improves r k) :
    keyLe (r.1, r.2.length) k := by
  rcases h with h | ⟨h, hn⟩
  · exact Or.inl h
  · exact Or.inr ⟨h, le_of_lt hn⟩

/-- One iteration of the candidate comparison in `MinWidthLayerer.process`:
replace the stored candidate if the new one is narrower, or equally wide
with fewer layers.  `none` stands for the initial `inf / inf / None`. -/
def selectStep (acc : Option (ℚ × Nat × List (List Nat))) (r : Candidate) :
    Option (ℚ × Nat × List (List Nat)) :=
  match acc with
  | none => some (entryOf r)
  | some e => if improves r (keyOf e) then some (entryOf r) else some e

/-- The candidate kept by `MinWidthLayerer.process` after comparing all
computed candidates in loop order. -/
def selectCandidate (results : List Candidate) : Option (ℚ × Nat × List (List Nat)) :=
  results.foldl selectStep none

theorem selectCandidate_foldl_spec (results : List Candidate)
    (acc fin : ℚ × Nat × List (List Nat))
    (hres : results.foldl selectStep (some acc) = some fin) :
    (fin = acc ∨ ∃ r ∈ results, fin = entryOf r) ∧
      keyLe (keyOf fin) (keyOf acc) ∧
      ∀ r ∈ results, keyLe (keyOf fin) (r.1, r.2.length) := by
  induction results generalizing acc with
  | nil =>
    simp only [List.foldl_nil, Option.some.injEq] at hres
    subst hres
    exact ⟨Or.inl rfl, keyLe_refl _, by intro r hr; cases hr⟩
  | cons head tail ih =>
    simp only [List.foldl_cons] at hres
    by_cases himp : improves head (keyOf acc)
    · have hstep : selectStep (some acc) head = some (entryOf head) := by
        simp [selectStep, himp]
      rw [hstep] at hres
      obtain ⟨hsrc, hle, hall⟩ := ih _ hres
      refine ⟨?_, ?_, ?_⟩
      · rcases hsrc with h | ⟨r, hr, h⟩
        · exact Or.inr ⟨head, List.mem_cons_self _ _, h⟩
        · exact Or.inr ⟨r, List.mem_cons_of_mem _ hr, h⟩
      · exact keyLe_trans hle (improves_keyLe himp)
      · intro r hr
        rcases List.mem_cons.mp hr with rfl | hr
        · exact hle
        · exact hall r hr
    · have hstep : selectStep (some acc) head = some acc := by
        simp [selectStep, himp]
      rw [hstep] at hres
      obtain ⟨hsrc, hle, hall⟩ := ih _ hres
      refine ⟨?_, hle, ?_⟩
      · rcases hsrc with h | ⟨r, hr, h⟩
        · exact Or.inl h
        · exact Or.inr ⟨r, List.mem_cons_of_mem _ hr, h⟩
      · intro r hr
        rcases List.mem_cons.mp hr with rfl | hr
        · exact keyLe_trans hle ((not_improves_iff _ _).mp himp)
        · exact hall r hr

/-- Minimality of the kept candidate: it comes from the input list, its
stored layer count is the length of its layering, and no computed candidate
is narrower (or equally narrow with fewer layers). -/
theorem selectCandidate_spec (results : List Candidate)
    (w : ℚ) (n : Nat) (L : List (List Nat))
    (hres : selectCandidate results = some (w, n, L)) :
    n = L.length ∧ (w, L) ∈ results ∧
      ∀ r ∈ results, w < r.1 ∨ (w = r.1 ∧ L.length ≤ r.2.length) := by
  match results with
  | [] => cases hres
  | head :: tail =>
    have hres' : tail.foldl selectStep (some (entryOf head)) = some (w, n, L) := by
      simpa [selectCandidate, selectStep] using hres
    obtain ⟨hsrc, hle, hall⟩ := selectCandidate_foldl_spec tail _ _ hres'
    have hsrc' : ∃ r ∈ head :: tail, (w, n, L) = entryOf r := by
      rcases hsrc with h | ⟨r, hr, h⟩
      · exact ⟨head, List.mem_cons_self _ _, h⟩
      · exact ⟨r, List.mem_cons_of_mem _ hr, h⟩
    obtain ⟨r0, hr0mem, heq⟩ := hsrc'
    simp only [entryOf, Prod.mk.injEq] at heq
    obtain ⟨rfl, rfl, rfl⟩ := heq
    refine ⟨rfl, by simpa using hr0mem, ?_⟩
    intro r hr
    have hkey : keyLe (keyOf (entryOf r0)) (r.1, r.2.length) := by
      rcases List.mem_cons.mp hr with rfl | hr'
      · exact hle
      · exact hall r hr'
    rcases hkey with h | ⟨h, hn⟩
    · exact Or.inl h
    · exact Or.inr ⟨h, hn⟩

/-- Claim C3, counterexample: with the module-level defaults
`LAYERING_MIN_WIDTH_UPPER_BOUND_ON_WIDTH = 10` and
`LAYERING_MIN_WIDTH_UPPER_LAYER_ESTIMATION_SCALING_FACTOR = 1` (both
non-negative, so the "unspecified" defaults), `MinWidthLayerer.process`
enumerates exactly the single pair `(10, 1)` and not the eight-pair grid
`ubw ∈ {1,2,3,4} × c ∈ {1,2}` that is only reached for negative values. -/
theorem C3_defaults_single_candidate :
    minWidthPairs LAYERING_MIN_WIDTH_UPPER_BOUND_ON_WIDTH
        LAYERING_MIN_WIDTH_UPPER_LAYER_ESTIMATION_SCALING_FACTOR = [(10, 1)] ∧
      minWidthPairs LAYERING_MIN_WIDTH_UPPER_BOUND_ON_WIDTH
          LAYERING_MIN_WIDTH_UPPER_LAYER_ESTIMATION_SCALING_FACTOR ≠
        minWidthPairs (-1) (-1) := by
  decide

/-- Claim C3, amended: the grid `ubw ∈ {1,2,3,4} × c ∈ {1,2}` is enumerated
only when the configured parameters are negative; the module defaults `(10,
1)` yield the single candidate pair `(10, 1)`.  Among the computed candidate
layerings, `process` installs one that occurs in the candidate list and has
minimum `maxWidth`, with ties broken by fewer layers. -/
theorem C3_candidate_selection (results : List Candidate) (w : ℚ) (n : Nat)
    (L : List (List Nat)) (hres : selectCandidate results = some (w, n, L)) :
    minWidthPairs (-1) (-1) =
        [(1, 1), (1, 2), (2, 1), (2, 2), (3, 1), (3, 2), (4, 1), (4, 2)] ∧
      minWidthPairs LAYERING_MIN_WIDTH_UPPER_BOUND_ON_WIDTH
          LAYERING_MIN_WIDTH_UPPER_LAYER_ESTIMATION_SCALING_FACTOR = [(10, 1)] ∧
      n = L.length ∧ (w, L) ∈ results ∧
      ∀ r ∈ results, w < r.1 ∨ (w = r.1 ∧ L.length ≤ r.2.length) := by
  obtain ⟨h1, h2, h3⟩ := selectCandidate_spec results w n L hres
  exact ⟨by decide, by decide, h1, h2, h3⟩

/-- Witness for `C3_candidate_selection` at a concrete two-candidate list. -/
theorem C3_candidate_selection_witness :
    ((1 : ℚ), [[2], [3], [4]]) ∈
      [((2 : ℚ), [[0], [1]]), ((1 : ℚ), [[2], [3], [4]])] :=
  (C3_candidate_selection [((2 : ℚ), [[0], [1]]), ((1 : ℚ), [[2], [3], [4]])]
    1 3 [[2], [3], [4]] (by decide)).2.2.2.1

/-- A node as seen by the ordering step of `MinWidthLayerer.process`: its id
and the `outdeg` field computed by `LNode.initPortDegrees`. -/
structure MWNode where
  id : Nat
  outdeg : Nat
  deriving DecidableEq, Repr

/-- An edge as seen by `LNode.initPortDegrees`: only its self-loop flag. -/
structure MWEdgeRef where
  isSelfLoop : Bool
  deriving DecidableEq, Repr

/-- A port as seen by `LNode.initPortDegrees`: its incoming and outgoing
edge lists. -/
structure MWPort where
  incomingEdges : List MWEdgeRef
  outgoingEdges : List MWEdgeRef
  deriving DecidableEq, Repr

/-- The `(indeg, outdeg)` pair computed by `LNode.initPortDegrees`: counts
of non-self-loop incoming/outgoing edges over all ports of the node. -/
def initPortDegrees (ports : List MWPort) : Nat × Nat :=
  (ports.foldl
      (fun indeg p => indeg + (p.incomingEdges.filter (fun e => !e.isSelfLoop)).length) 0,
   ports.foldl
      (fun outdeg p => outdeg + (p.outgoingEdges.filter (fun e => !e.isSelfLoop)).length) 0)

/-- The ordering step `notInserted.sort(key=lambda node: node.outdeg)` of
`MinWidthLayerer.process`: a stable sort ascending by `outdeg` (Python's
`list.sort` is stable and ascending; any stable ascending sort computes the
same list, here insertion sort). -/
def sortNodesByOutdeg (notInserted : List MWNode) : List MWNode :=
  notInserted.insertionSort (fun a b => a.outdeg ≤ b.outdeg)

/-- Claim C9: evaluation of the ordering step at a two-node graph in which
node 0 has one outgoing edge (out-degree 1) and node 1 has none.  The code
sorts ascending by out-degree, so the maximum-out-degree node ends up last,
the opposite of the descending order claimed (and stated in the comment
above the `sort` call). -/
theorem C9_sort_ascending_not_descending :
    (initPortDegrees [⟨[], [⟨false⟩]⟩]).2 = 1 ∧
      (initPortDegrees [⟨[⟨false⟩], []⟩]).2 = 0 ∧
      sortNodesByOutdeg [⟨0, 1⟩, ⟨1, 0⟩] = [⟨1, 0⟩, ⟨0, 1⟩] ∧
      sortNodesByOutdeg [⟨0, 1⟩, ⟨1, 0⟩] ≠ [⟨0, 1⟩, ⟨1, 0⟩] := by
  decide

end MinWidth

/-! ## Orthogonal edge router (`p5ortogonalRouter/routingGenerator.py`) -/

namespace OrthogonalRouting

/-- Python built-in `abs` on floats, modelled on the rationals. -/
def pyAbs (q : ℚ) : ℚ := if q < 0 then -q else q

/-- Class constant `TOLERANCE = 1e-3` of `OrthogonalRoutingGenerator`. -/
def TOLERANCE : ℚ := 1 / 1000

/-- Class constant `CONFLICT_PENALTY = 16` of `OrthogonalRoutingGenerator`. -/
def CONFLICT_PENALTY : Nat := 16

/-- A hypernode as consumed by `createDependency`: `posStart`/`posEnd` embed
the `start`/`end` fields (vertical extent), `sourcePosis`/`targetPosis` the
sorted position deques of segments to the preceding/next layer. -/
structure HyperNode where
  posStart : ℚ
  posEnd : ℚ
  sourcePosis : List ℚ
  targetPosis : List ℚ
  deriving DecidableEq, Repr

/-- Static method `countConflicts(posis1, posis2, minDiff)`.  The guard
`if posis1 and posis2:` is ordinary Python (an empty deque is falsy), but
behind it the first statement is `iter1 = posis1.iterator()` — a Java-ism:
`collections.deque` has no `iterator` method, so the call raises
`AttributeError` whenever both position lists are non-empty, before any
position is compared.  Only when at least one list is empty does the
method return, with `conflicts = 0`. -/
def countConflicts (posis1 posis2 : List ℚ) (minDiff : ℚ) : Except String Nat :=
  if posis1 ≠ [] ∧ posis2 ≠ [] then
    .error "AttributeError: collections.deque object has no attribute iterator"
  else
    .ok 0

/-- Static method `countCrossings(posis, start, end)`: the number of
positions inside the critical area, stopping at the first position beyond
`end`. -/
def countCrossings (posis : List ℚ) (posStart posEnd : ℚ) : Nat :=
  match posis with
  | [] => 0
  | pos :: rest =>
    if posEnd < pos then 0
    else if posStart ≤ pos then 1 + countCrossings rest posStart posEnd
    else countCrossings rest posStart posEnd

/-- Direction of a created `Dependency`: from `hn1` to `hn2` or back. -/
inductive DepDir
  | d12
  | d21
  deriving DecidableEq, Repr

/-- Classmethod `createDependency(hn1, hn2, minDiff)`: the list of
`Dependency` objects constructed, in creation order (each `Dependency(src,
tgt, w)` registers itself with its endpoints), or the Python error raised
while computing the conflict counts. -/
def createDependency (hn1 hn2 : HyperNode) (minDiff : ℚ) :
    Except String (List (DepDir × Nat)) :=
  if pyAbs (hn1.posStart - hn1.posEnd) < TOLERANCE ∨
      pyAbs (hn2.posStart - hn2.posEnd) < TOLERANCE then
    .ok []
  else
    match countConflicts hn1.targetPosis hn2.sourcePosis minDiff with
    | .error m => .error m
    | .ok conflicts1 =>
      match countConflicts hn2.targetPosis hn1.sourcePosis minDiff with
      | .error m => .error m
      | .ok conflicts2 =>
        let crossings1 := countCrossings hn1.targetPosis hn2.posStart hn2.posEnd +
          countCrossings hn2.sourcePosis hn1.posStart hn1.posEnd
        let crossings2 := countCrossings hn2.targetPosis hn1.posStart hn1.posEnd +
          countCrossings hn1.sourcePosis hn2.posStart hn2.posEnd
        let depValue1 := CONFLICT_PENALTY * conflicts1 + crossings1
        let depValue2 := CONFLICT_PENALTY * conflicts2 + crossings2
        if depValue1 < depValue2 then .ok [(DepDir.d12, depValue2 - depValue1)]
        else if depValue2 < depValue1 then .ok [(DepDir.d21, depValue1 - depValue2)]
        else if 0 < depValue1 ∧ 0 < depValue2 then
          .ok [(DepDir.d12, 0), (DepDir.d21, 0)]
        else .ok []

/-- First hypernode of the failing input: vertical extent 0..10, one
segment position towards the next layer. -/
def cHn1 : HyperNode := ⟨0, 10, [6], [10]⟩

/-- Second hypernode of the failing input: vertical extent 5..15, one
segment position towards the preceding layer. -/
def cHn2 : HyperNode := ⟨5, 15, [5], [15]⟩

/-- C5: any hypernode pair that passes the vertical-extent guard and has
segments to count against each other — the first node has positions
towards the next layer and the second node towards the preceding one —
never reaches the cost computation: `countConflicts` calls the Java-style
`iterator()` on a `collections.deque`, so `createDependency` raises
`AttributeError` and no dependency, weighted or zero-weight, is ever
created for such pairs. -/
theorem C5_create_dependency_attribute_error (hn1 hn2 : HyperNode) (minDiff : ℚ)
    (hext1 : TOLERANCE ≤ pyAbs (hn1.posStart - hn1.posEnd))
    (hext2 : TOLERANCE ≤ pyAbs (hn2.posStart - hn2.posEnd))
    (ht : hn1.targetPosis ≠ []) (hs : hn2.sourcePosis ≠ []) :
    createDependency hn1 hn2 minDiff =
      .error "AttributeError: collections.deque object has no attribute iterator" := by
  have hguard : ¬(pyAbs (hn1.posStart - hn1.posEnd) < TOLERANCE ∨
      pyAbs (hn2.posStart - hn2.posEnd) < TOLERANCE) := by
    rw [not_or, not_lt, not_lt]
    exact ⟨hext1, hext2⟩
  rw [createDependency, if_neg hguard, countConflicts, if_pos ⟨ht, hs⟩]

/-- Witness for `C5_create_dependency_attribute_error` at the concrete
failing input. -/
theorem C5_create_dependency_attribute_error_witness :
    createDependency cHn1 cHn2 1 =
      .error "AttributeError: collections.deque object has no attribute iterator" :=
  C5_create_dependency_attribute_error cHn1 cHn2 1
    (by norm_num [pyAbs, TOLERANCE, cHn1])
    (by norm_num [pyAbs, TOLERANCE, cHn2])
    (by simp [cHn1]) (by simp [cHn2])

end OrthogonalRouting

/-! ## Edge reversal (`containers/lEdge.py`) -/

namespace LEdgeReverse

/-- The HEAD/TAIL edge-label placement enum.  `LEdge.reverse` references the
name `EdgeLabelPlacement`, but no module of the repository defines or
imports it, so evaluating the label loop raises a `NameError` at runtime;
the enum itself is modelled here from the spec's description of HEAD/TAIL
end labels so that labelled edges can be represented at all. -/
inductive EdgeLabelPlacement
  | HEAD
  | TAIL
  | CENTER
  deriving DecidableEq, Repr

/-- An edge label: only its `edgeLabelsPlacement` attribute is touched by
`LEdge.reverse`. -/
structure LLabel where
  edgeLabelsPlacement : EdgeLabelPlacement
  deriving DecidableEq, Repr

/-- The fields of `LEdge` read or written by `reverse` (without port
adaptation): endpoint ports, cached endpoint nodes, the reversed flag and
the label list.  Ports and nodes are identified by ids. -/
structure LEdge where
  src : Nat
  dst : Nat
  srcNode : Nat
  dstNode : Nat
  reversed : Bool
  labels : List LLabel
  deriving DecidableEq, Repr

/-- Association list from port id to an edge-id list (one incoming and one
outgoing such map make up the port-side state of `reverse`). -/
abbrev EdgeListMap := List (Nat × List Nat)

/-- Lookup in an `EdgeListMap` (a port's current edge list). -/
def elmGet (m : EdgeListMap) (k : Nat) : List Nat :=
  ((m.find? (fun p => p.1 == k)).map (fun p => p.2)).getD []

/-- Pointwise update of an `EdgeListMap` (mutation of a port's edge list). -/
def elmSet (m : EdgeListMap) (k : Nat) (v : List Nat) : EdgeListMap :=
  m.map (fun p => if p.1 == k then (p.1, v) else p)

/-- The state surrounding one edge during `reverse`: the edge itself plus
the `outgoingEdges`/`incomingEdges` lists of all ports. -/
structure EdgeCtx where
  edge : LEdge
  outgoingEdges : EdgeListMap
  incomingEdges : EdgeListMap
  deriving DecidableEq, Repr

/-- Method `LEdge.reverse(layeredGraph, adaptPorts=False)` on the edge with
id `eid`: remove the edge from its source port's outgoing and target port's
incoming list (`list.remove` raises `ValueError` when absent), swap the
ports, re-append, swap the cached nodes, negate the reversed flag, then run
the end-label loop — whose first comparison raises `NameError` because the
name `EdgeLabelPlacement` is defined nowhere in the repository. -/
def reverse (eid : Nat) (s : EdgeCtx) : Except String EdgeCtx :=
  let e := s.edge
  if eid ∉ elmGet s.outgoingEdges e.src then
    .error "ValueError: list.remove(x): x not in list"
  else if eid ∉ elmGet s.incomingEdges e.dst then
    .error "ValueError: list.remove(x): x not in list"
  else
    let outs := elmSet s.outgoingEdges e.src ((elmGet s.outgoingEdges e.src).erase eid)
    let ins := elmSet s.incomingEdges e.dst ((elmGet s.incomingEdges e.dst).erase eid)
    let e' : LEdge :=
      { src := e.dst, dst := e.src, srcNode := e.dstNode, dstNode := e.srcNode,
        reversed := !e.reversed, labels := e.labels }
    let outs' := elmSet outs e'.src (elmGet outs e'.src ++ [eid])
    let ins' := elmSet ins e'.dst (elmGet ins e'.dst ++ [eid])
    match e.labels with
    | [] => .ok { edge := e', outgoingEdges := outs', incomingEdges := ins' }
    | _ :: _ => .error "NameError: name EdgeLabelPlacement is not defined"

/-- Reversing the same edge twice in sequence. -/
def reverseTwice (eid : Nat) (s : EdgeCtx) : Except String EdgeCtx :=
  (reverse eid s).bind (reverse eid)

/-- Concrete edge with one HEAD label: source port 0 on node 10, target
port 1 on node 11. -/
def cLabelled : EdgeCtx :=
  { edge := { src := 0, dst := 1, srcNode := 10, dstNode := 11,
              reversed := false, labels := [⟨EdgeLabelPlacement.HEAD⟩] },
    outgoingEdges := [(0, [0]), (1, [])],
    incomingEdges := [(0, []), (1, [0])] }

/-- The same configuration without labels. -/
def cPlain : EdgeCtx :=
  { edge := { src := 0, dst := 1, srcNode := 10, dstNode := 11,
              reversed := false, labels := [] },
    outgoingEdges := [(0, [0]), (1, [])],
    incomingEdges := [(0, []), (1, [0])] }

/-- Claim C8: on an edge carrying a HEAD label, already the first `reverse`
call aborts with a `NameError` (the name `EdgeLabelPlacement` resolves
nowhere), so double reversal is not the identity for labelled edges; for
the same edge without labels, double reversal restores the source port,
target port, cached nodes, reversed flag and both membership lists exactly,
the edge appearing exactly once in each. -/
theorem C8_reverse_twice_eval :
    reverseTwice 0 cLabelled = .error "NameError: name EdgeLabelPlacement is not defined" ∧
      reverse 0 cLabelled = .error "NameError: name EdgeLabelPlacement is not defined" ∧
      reverseTwice 0 cPlain = .ok cPlain ∧
      (elmGet cPlain.outgoingEdges cPlain.edge.src).count 0 = 1 ∧
      (elmGet cPlain.incomingEdges cPlain.edge.dst).count 0 = 1 :=
  ⟨rfl, rfl, rfl, rfl, rfl⟩

end LEdgeReverse

/-! ## Layer-sweep driver (`crossing/layerSweepCrossingMinimizer.py`) -/

namespace LayerSweep

variable {ρ σ : Type}

/-- The outcomes of `n` successive `minimizeCrossingsWithCounter` calls
starting from random-source state `st`: each call is an abstract function
`run` from the random-source state to the crossing count it returns, the
node-and-port order the graph holds afterwards, and the advanced state. -/
def runList (run : ρ → Nat × σ × ρ) : ρ → Nat → List (Nat × σ)
  | _, 0 => []
  | st, n + 1 =>
    let r := run st
    (r.1, r.2.1) :: runList run r.2.2 n

/-- The random-source state after `n` successive runs. -/
def stateAfter (run : ρ → Nat × σ × ρ) : ρ → Nat → ρ
  | st, 0 => st
  | st, n + 1 => stateAfter run (run st).2.2 n

/-- The prefix of runs actually executed: everything up to and including
the first run that counts zero crossings. -/
def takeUntilZero : List (Nat × σ) → List (Nat × σ)
  | [] => []
  | r :: rest => if r.1 = 0 then [r] else r :: takeUntilZero rest

/-- The best-run update: keep the stored `(bestCrossings, order)` unless
the new run counted strictly fewer crossings (`none` stands for the
initial `bestCrossings = inf`). -/
def bestStep (acc : Option (Nat × σ)) (r : Nat × σ) : Option (Nat × σ) :=
  match acc with
  | none => some r
  | some (bc, bo) => if r.1 < bc then some r else some (bc, bo)

/-- The `for _ in range(thoroughness)` loop of
`compareDifferentRandomizedLayouts`: call `minimizeCrossingsWithCounter`,
keep the order on strict improvement (`saveAllNodeOrdersOfChangedGraphs`),
and break as soon as the improved best reaches zero. -/
def compareLoop (run : ρ → Nat × σ × ρ) : Nat → ρ → Option (Nat × σ) → Option (Nat × σ) × ρ
  | 0, rng, best => (best, rng)
  | n + 1, rng, best =>
    let r := run rng
    let crossings := r.1
    let order := r.2.1
    let rng' := r.2.2
    match best with
    | none =>
      if crossings = 0 then (some (crossings, order), rng')
      else compareLoop run n rng' (some (crossings, order))
    | some (bc, bo) =>
      if crossings < bc then
        if crossings = 0 then (some (crossings, order), rng')
        else compareLoop run n rng' (some (crossings, order))
      else compareLoop run n rng' (some (bc, bo))

/-- Method `compareDifferentRandomizedLayouts`: it first re-seeds the
shared random source (`self.random.seed(self.randomSeed)`), discarding the
incoming state `rng` in favour of the fixed re-seeded state `seeded`, then
runs the comparison loop with `bestCrossings = inf`. -/
def compareDifferentRandomizedLayouts (run : ρ → Nat × σ × ρ) (seeded : ρ)
    (thoroughness : Nat) (rng : ρ) : Option (Nat × σ) × ρ :=
  compareLoop run thoroughness seeded none

theorem compareLoop_spec (run : ρ → Nat × σ × ρ) (n : Nat) (st : ρ)
    (acc : Option (Nat × σ)) (hacc : ∀ bc bo, acc = some (bc, bo) → bc ≠ 0) :
    compareLoop run n st acc =
      ((takeUntilZero (runList run st n)).foldl bestStep acc,
       stateAfter run st (takeUntilZero (runList run st n)).length) := by
  induction n generalizing st acc with
  | zero => simp [compareLoop, runList, takeUntilZero, stateAfter]
  | succ n ih =>
    rcases hrun : run st with ⟨c, o, st'⟩
    have hrl : runList run st (n + 1) = (c, o) :: runList run st' n := by
      simp [runList, hrun]
    match acc with
    | none =>
      by_cases hc : c = 0
      · subst hc
        simp [compareLoop, hrun, hrl, takeUntilZero, bestStep, stateAfter]
      · have := ih st' (some (c, o)) (by intro bc bo h; cases h; exact hc)
        simp [compareLoop, hrun, hrl, takeUntilZero, hc, bestStep, stateAfter, this]
    | some (bc, bo) =>
      have hbc : bc ≠ 0 := hacc bc bo rfl
      by_cases hlt : c < bc
      · by_cases hc : c = 0
        · subst hc
          simp [compareLoop, hrun, hrl, takeUntilZero, bestStep, hlt, stateAfter]
        · have := ih st' (some (c, o)) (by intro bc' bo' h; cases h; exact hc)
          simp [compareLoop, hrun, hrl, takeUntilZero, hc, bestStep, hlt, stateAfter, this]
      · have hc : c ≠ 0 := by omega
        have := ih st' (some (bc, bo)) (by intro bc' bo' h; cases h; exact hbc)
        simp [compareLoop, hrun, hrl, takeUntilZero, hc, bestStep, hlt, stateAfter, this]

theorem bestStep_foldl_spec (l : List (Nat × σ)) (acc fin : Option (Nat × σ))
    (hres : l.foldl bestStep acc = fin) (bc : Nat) (bo : σ)
    (hfin : fin = some (bc, bo)) :
    ((bc, bo) ∈ l ∨ acc = some (bc, bo)) ∧
      (∀ r ∈ l, bc ≤ r.1) ∧
      (∀ bc' bo', acc = some (bc', bo') → bc ≤ bc') := by
  subst hfin
  induction l generalizing acc with
  | nil =>
    simp only [List.foldl_nil] at hres
    refine ⟨Or.inr hres, ?_, ?_⟩
    · intro r hr
      cases hr
    · intro bc' bo' h
      rw [h, Option.some_inj] at hres
      injection hres with h1 h2
      exact le_of_eq h1.symm
  | cons head tail ih =>
    simp only [List.foldl_cons] at hres
    obtain ⟨hsrc, hall, hle⟩ := ih _ hres
    have hstep : (bestStep acc head = some head ∧
          (∀ bc' bo', acc = some (bc', bo') → head.1 ≤ bc')) ∨
        (bestStep acc head = acc ∧ ∃ bc' bo', acc = some (bc', bo') ∧ bc' ≤ head.1) := by
      match acc with
      | none =>
        left
        exact ⟨rfl, by intro bc' bo' h; cases h⟩
      | some (bc', bo') =>
        by_cases hlt : head.1 < bc'
        · left
          refine ⟨by simp [bestStep, hlt], ?_⟩
          intro bc'' bo'' h
          cases h
          exact le_of_lt hlt
        · right
          exact ⟨by simp [bestStep, hlt], bc', bo', rfl, by omega⟩
    rcases hstep with ⟨heq, hhead⟩ | ⟨heq, bc', bo', hacc, hble⟩
    · rw [heq] at hsrc hle
      refine ⟨?_, ?_, ?_⟩
      · rcases hsrc with h | h
        · exact Or.inl (List.mem_cons_of_mem _ h)
        · rw [Option.some_inj] at h
          exact Or.inl (h ▸ List.mem_cons_self _ _)
      · intro r hr
        rcases List.mem_cons.mp hr with rfl | hr
        · exact hle r.1 r.2 rfl
        · exact hall r hr
      · intro bc'' bo'' h
        exact le_trans (hle head.1 head.2 rfl) (hhead bc'' bo'' h)
    · rw [heq] at hsrc hle
      refine ⟨?_, ?_, ?_⟩
      · rcases hsrc with h | h
        · exact Or.inl (List.mem_cons_of_mem _ h)
        · exact Or.inr h
      · intro r hr
        rcases List.mem_cons.mp hr with rfl | hr
        · exact le_trans (hle bc' bo' hacc) hble
        · exact hall r hr
      · exact hle

/-- Claim C2: `compareDifferentRandomizedLayouts` re-seeds the shared
random source first, so its result is independent of the incoming
random-source state; it then performs `minimizeCrossingsWithCounter` runs
until the `thoroughness` budget is exhausted or a run counts zero
crossings (the executed runs are exactly `takeUntilZero` of the seeded run
sequence, as witnessed by the final random-source state), and the kept
`(bestCrossings, order)` is an executed run whose crossing count is
minimal among all executed runs. -/
theorem C2_compare_randomized_layouts (run : ρ → Nat × σ × ρ) (seeded : ρ)
    (thoroughness : Nat) (r1 r2 : ρ) (bc : Nat) (bo : σ)
    (hbest : (compareDifferentRandomizedLayouts run seeded thoroughness r1).1 =
      some (bc, bo)) :
    compareDifferentRandomizedLayouts run seeded thoroughness r1 =
        compareDifferentRandomizedLayouts run seeded thoroughness r2 ∧
      (compareDifferentRandomizedLayouts run seeded thoroughness r1).2 =
        stateAfter run seeded
          (takeUntilZero (runList run seeded thoroughness)).length ∧
      (bc, bo) ∈ takeUntilZero (runList run seeded thoroughness) ∧
      ∀ r ∈ takeUntilZero (runList run seeded thoroughness), bc ≤ r.1 := by
  have hspec := compareLoop_spec run thoroughness seeded none
    (by intro bc' bo' h; cases h)
  have hdrv : compareDifferentRandomizedLayouts run seeded thoroughness r1 =
      compareLoop run thoroughness seeded none := rfl
  have hbest' : (takeUntilZero (runList run seeded thoroughness)).foldl bestStep none =
      some (bc, bo) := by
    rw [hdrv, hspec] at hbest
    exact hbest
  obtain ⟨hsrc, hall, _⟩ := bestStep_foldl_spec _ none _ hbest' bc bo rfl
  refine ⟨rfl, ?_, ?_, hall⟩
  · rw [hdrv, hspec]
  · rcases hsrc with h | h
    · exact h
    · cases h

/-- A concrete run function: state counts the calls, crossing counts are
3, 2, 1, 0, and the order returned by call `i` is `i`. -/
def cRun (st : Nat) : Nat × Nat × Nat := (3 - st, st, st + 1)

/-- Witness for `C2_compare_randomized_layouts` with the concrete run
function, seeded state 0 and thoroughness 10: the driver stops after the
fourth run (the first that counts zero) and keeps its order. -/
theorem C2_compare_randomized_layouts_witness :
    (0, 3) ∈ takeUntilZero (runList cRun 0 10) ∧
      ∀ r ∈ takeUntilZero (runList cRun 0 10), 0 ≤ r.1 :=
  let h := C2_compare_randomized_layouts cRun 0 10 5 7 0 3 (by decide)
  ⟨h.2.2.1, h.2.2.2⟩

end LayerSweep

/-! ## Brandes–Köpf node placer (`p4NodePlacerBK/nodePlacer.py`,
`p4NodePlacerBK/alignedLayout.py`)

In the source, `BKNodePlacer.process` appends the four candidate layouts
with `layouts.add(...)`; Python lists have no `add` method, so every call
raises `AttributeError` before any candidate is built.  The definitions
below embed the documented selection logic that follows those calls,
reading `add` as the list append it is in the Java original. -/

namespace BKPlacer

/-- Vertical direction enumeration of `alignedLayout.py`. -/
inductive VDirection
  | DOWN
  | UP
  deriving DecidableEq, Repr

/-- Horizontal direction enumeration of `alignedLayout.py`. -/
inductive HDirection
  | RIGHT
  | LEFT
  deriving DecidableEq, Repr

/-- Node attributes of the layered graph read by the selection phase:
layers of node ids plus per-node margins and height (`getMargin().top`,
`getMargin().bottom`, `getSize().y`), id-indexed. -/
structure BKGraph where
  layers : List (List Nat)
  marginTop : List ℚ
  marginBottom : List ℚ
  sizeY : List ℚ
  deriving Repr

/-- The fields of `BKAlignedLayout` read by the selection phase: direction
tags and the id-indexed `y`, `innerShift`, `root` and `blockSize` arrays. -/
structure BKAlignedLayout where
  vdir : VDirection
  hdir : HDirection
  y : List ℚ
  innerShift : List ℚ
  root : List Nat
  blockSize : List ℚ
  deriving Repr

def balY (bal : BKAlignedLayout) (n : Nat) : ℚ := bal.y.getD n 0

def balInnerShift (bal : BKAlignedLayout) (n : Nat) : ℚ := bal.innerShift.getD n 0

def balRoot (bal : BKAlignedLayout) (n : Nat) : Nat := bal.root.getD n n

def balBlockSize (bal : BKAlignedLayout) (n : Nat) : ℚ := bal.blockSize.getD n 0

def gMarginTop (g : BKGraph) (n : Nat) : ℚ := g.marginTop.getD n 0

def gMarginBottom (g : BKGraph) (n : Nat) : ℚ := g.marginBottom.getD n 0

def gSizeY (g : BKGraph) (n : Nat) : ℚ := g.sizeY.getD n 0

/-- The inner loop of `BKNodePlacer.checkOrderConstraint` over one layer:
`pos` is the running bottom position (`none` is the initial `-inf`); a node
whose top or bottom border does not lie strictly beyond `pos` is an
overlap and makes the layout infeasible. -/
def checkLayer (g : BKGraph) (bal : BKAlignedLayout) :
    Option ℚ → List Nat → Bool
  | _, [] => true
  | pos, n :: rest =>
    let top := balY bal n + balInnerShift bal n - gMarginTop g n
    let bottom := balY bal n + balInnerShift bal n + gSizeY g n + gMarginBottom g n
    let ok : Bool :=
      match pos with
      | none => true
      | some p => decide (p < top) && decide (p < bottom)
    if ok then checkLayer g bal (some bottom) rest else false

/-- Method `BKNodePlacer.checkOrderConstraint`: every layer must place its
nodes in strictly advancing, non-overlapping vertical order. -/
def checkOrderConstraint (g : BKGraph) (bal : BKAlignedLayout) : Bool :=
  g.layers.all (fun layer => checkLayer g bal none layer)

/-- Method `BKAlignedLayout.layoutSize`: the extent from the minimum node
`y` to the maximum `y` plus the block size of the node's root.  The `inf /
-inf` initialisation is modelled by an `Option` accumulator; the selection
phase only runs on graphs with at least one node, where the accumulator is
always set. -/
def layoutSize (g : BKGraph) (bal : BKAlignedLayout) : ℚ :=
  let step := fun (acc : Option (ℚ × ℚ)) (n : Nat) =>
    let yMin := balY bal n
    let yMax := yMin + balBlockSize bal (balRoot bal n)
    match acc with
    | none => some (yMin, yMax)
    | some (mn, mx) => some (min mn yMin, max mx yMax)
  match g.layers.flatten.foldl step none with
  | some (mn, mx) => mx - mn
  | none => 0

/-- The `chosenLayout` loop of `BKNodePlacer.process`: among the candidate
layouts that pass the order check, keep the first one of smallest
`layoutSize` (the stored layout is replaced only on strict decrease). -/
def chooseLayout (g : BKGraph) (layouts : List BKAlignedLayout) :
    Option BKAlignedLayout :=
  layouts.foldl
    (fun chosenLayout bal =>
      if checkOrderConstraint g bal then
        match chosenLayout with
        | none => some bal
        | some best =>
          if layoutSize g bal < layoutSize g best then some bal else some best
      else chosenLayout)
    none

/-- The selection tail of `BKNodePlacer.process`: the chosen layout, or
`layouts[0]` when every candidate fails the order check. -/
def processSelect (g : BKGraph) (layouts : List BKAlignedLayout) :
    Option BKAlignedLayout :=
  match chooseLayout g layouts with
  | some bal => some bal
  | none => layouts.head?

theorem chooseLayout_foldl_spec (g : BKGraph) (layouts : List BKAlignedLayout)
    (acc : Option BKAlignedLayout) (fin : BKAlignedLayout)
    (hacc : ∀ a, acc = some a → checkOrderConstraint g a = true)
    (hres : layouts.foldl
      (fun chosenLayout bal =>
        if checkOrderConstraint g bal then
          match chosenLayout with
          | none => some bal
          | some best =>
            if layoutSize g bal < layoutSize g best then some bal else some best
        else chosenLayout)
      acc = some fin) :
    (fin ∈ layouts ∨ acc = some fin) ∧
      checkOrderConstraint g fin = true ∧
      (∀ a, acc = some a → layoutSize g fin ≤ layoutSize g a) ∧
      ∀ l ∈ layouts, checkOrderConstraint g l = true →
        layoutSize g fin ≤ layoutSize g l := by
  induction layouts generalizing acc with
  | nil =>
    simp only [List.foldl_nil] at hres
    refine ⟨Or.inr hres, hacc fin hres, ?_, ?_⟩
    · intro a ha
      rw [hres, Option.some_inj] at ha
      exact le_of_eq (congrArg (layoutSize g) ha.symm).symm
    · intro l hl
      cases hl
  | cons head tail ih =>
    simp only [List.foldl_cons] at hres
    by_cases hchk : checkOrderConstraint g head = true
    · match acc with
      | none =>
        rw [if_pos hchk] at hres
        obtain ⟨hsrc, hfin, hle, hall⟩ := ih (some head)
          (by intro a ha; rw [Option.some_inj] at ha; exact ha ▸ hchk) hres
        refine ⟨?_, hfin, ?_, ?_⟩
        · rcases hsrc with h | h
          · exact Or.inl (List.mem_cons_of_mem _ h)
          · rw [Option.some_inj] at h
            exact Or.inl (h ▸ List.mem_cons_self _ _)
        · intro a ha
          cases ha
        · intro l hl hlchk
          rcases List.mem_cons.mp hl with rfl | hl'
          · exact hle l rfl
          · exact hall l hl' hlchk
      | some best =>
        rw [if_pos hchk] at hres
        dsimp only at hres
        have hbest : checkOrderConstraint g best = true := hacc best rfl
        by_cases hlt : layoutSize g head < layoutSize g best
        · rw [if_pos hlt] at hres
          obtain ⟨hsrc, hfin, hle, hall⟩ := ih (some head)
            (by intro a ha; rw [Option.some_inj] at ha; exact ha ▸ hchk) hres
          refine ⟨?_, hfin, ?_, ?_⟩
          · rcases hsrc with h | h
            · exact Or.inl (List.mem_cons_of_mem _ h)
            · rw [Option.some_inj] at h
              exact Or.inl (h ▸ List.mem_cons_self _ _)
          · intro a ha
            rw [Option.some_inj] at ha
            exact ha ▸ le_trans (hle head rfl) (le_of_lt hlt)
          · intro l hl hlchk
            rcases List.mem_cons.mp hl with rfl | hl'
            · exact hle l rfl
            · exact hall l hl' hlchk
        · rw [if_neg hlt] at hres
          obtain ⟨hsrc, hfin, hle, hall⟩ := ih (some best)
            (by intro a ha; rw [Option.some_inj] at ha; exact ha ▸ hbest) hres
          refine ⟨?_, hfin, ?_, ?_⟩
          · rcases hsrc with h | h
            · exact Or.inl (List.mem_cons_of_mem _ h)
            · exact Or.inr h
          · intro a ha
            rw [Option.some_inj] at ha
            exact ha ▸ hle best rfl
          · intro l hl hlchk
            rcases List.mem_cons.mp hl with rfl | hl'
            · exact le_trans (hle best rfl) (le_of_not_lt hlt)
            · exact hall l hl' hlchk
    · rw [if_neg hchk] at hres
      obtain ⟨hsrc, hfin, hle, hall⟩ := ih acc hacc hres
      refine ⟨?_, hfin, hle, ?_⟩
      · rcases hsrc with h | h
        · exact Or.inl (List.mem_cons_of_mem _ h)
        · exact Or.inr h
      · intro l hl hlchk
        rcases List.mem_cons.mp hl with rfl | hl'
        · exact absurd hlchk hchk
        · exact hall l hl' hlchk

theorem chooseLayout_all_fail (g : BKGraph) (layouts : List BKAlignedLayout)
    (acc : Option BKAlignedLayout)
    (h : ∀ l ∈ layouts, checkOrderConstraint g l = false) :
    layouts.foldl
      (fun chosenLayout bal =>
        if checkOrderConstraint g bal then
          match chosenLayout with
          | none => some bal
          | some best =>
            if layoutSize g bal < layoutSize g best then some bal else some best
        else chosenLayout)
      acc = acc := by
  induction layouts generalizing acc with
  | nil => simp
  | cons head tail ih =>
    have hhead : checkOrderConstraint g head = false := h head (List.mem_cons_self _ _)
    simp only [List.foldl_cons, hhead]
    exact ih acc (fun l hl => h l (List.mem_cons_of_mem _ hl))

/-- Claim C4 (the selection logic following the `layouts.add` calls, with
`add` read as list append): with alignment `NONE` and
`favorStraightEdges=True` the candidate list is
`[rightdown, rightup, leftdown, leftup]`; the applied layout is the first
candidate of smallest `layoutSize` among those passing
`checkOrderConstraint`, and when all four candidates fail the check the
fallback `layouts[0]` — the RIGHT-DOWN layout — is applied. -/
theorem C4_layout_selection (g : BKGraph)
    (rightdown rightup leftdown leftup : BKAlignedLayout) :
    ((∀ l ∈ [rightdown, rightup, leftdown, leftup],
        checkOrderConstraint g l = false) →
      processSelect g [rightdown, rightup, leftdown, leftup] = some rightdown) ∧
    ∀ bal, chooseLayout g [rightdown, rightup, leftdown, leftup] = some bal →
      processSelect g [rightdown, rightup, leftdown, leftup] = some bal ∧
      bal ∈ [rightdown, rightup, leftdown, leftup] ∧
      checkOrderConstraint g bal = true ∧
      ∀ l ∈ [rightdown, rightup, leftdown, leftup],
        checkOrderConstraint g l = true → layoutSize g bal ≤ layoutSize g l := by
  constructor
  · intro hall
    have hnone : chooseLayout g [rightdown, rightup, leftdown, leftup] = none :=
      chooseLayout_all_fail g _ none hall
    simp [processSelect, hnone]
  · intro bal hbal
    have hspec := chooseLayout_foldl_spec g [rightdown, rightup, leftdown, leftup]
      none bal (by intro a ha; cases ha) hbal
    obtain ⟨hsrc, hchk, _, hall⟩ := hspec
    refine ⟨by simp [processSelect, hbal], ?_, hchk, hall⟩
    rcases hsrc with h | h
    · exact h
    · cases h

/-- Concrete graph for the selection witness: one layer with nodes 0 and 1,
both of height 2 and zero margins. -/
def cG : BKGraph := ⟨[[0, 1]], [0, 0], [0, 0], [2, 2]⟩

/-- RIGHT-DOWN candidate: nodes overlap, fails the order check. -/
def cRd : BKAlignedLayout :=
  ⟨VDirection.DOWN, HDirection.RIGHT, [0, 1], [0, 0], [0, 1], [2, 2]⟩

/-- RIGHT-UP candidate: feasible with layout size 5. -/
def cRu : BKAlignedLayout :=
  ⟨VDirection.UP, HDirection.RIGHT, [0, 3], [0, 0], [0, 1], [2, 2]⟩

/-- LEFT-DOWN candidate: feasible with layout size 9/2, the smallest. -/
def cLd : BKAlignedLayout :=
  ⟨VDirection.DOWN, HDirection.LEFT, [0, 5/2], [0, 0], [0, 1], [2, 2]⟩

/-- LEFT-UP candidate: nodes coincide, fails the order check. -/
def cLu : BKAlignedLayout :=
  ⟨VDirection.UP, HDirection.LEFT, [0, 0], [0, 0], [0, 1], [2, 2]⟩

/-- Witness for `C4_layout_selection`: with one failing and two feasible
candidates the smallest feasible one (LEFT-DOWN, size 9/2) is applied. -/
theorem C4_layout_selection_witness :
    processSelect cG [cRd, cRu, cLd, cLu] = some cLd ∧
      checkOrderConstraint cG cLd = true := by
  have hchoose : chooseLayout cG [cRd, cRu, cLd, cLu] = some cLd := by
    norm_num [chooseLayout, checkOrderConstraint, checkLayer, layoutSize,
      balY, balInnerShift, balRoot, balBlockSize, gMarginTop, gMarginBottom,
      gSizeY, cG, cRd, cRu, cLd, cLu]
  have h := (C4_layout_selection cG cRd cRu cLd cLu).2 cLd hchoose
  exact ⟨h.1, h.2.2.1⟩

end BKPlacer

/-! ## Greedy cycle breaker (`greedyCycleBreaker.py`) -/

namespace GreedyCycleBreaker

/-- A port as seen by the cycle breaker: its incoming and outgoing edge-id
lists. -/
structure CBPort where
  incomingEdges : List Nat
  outgoingEdges : List Nat
  deriving DecidableEq, Repr

/-- An edge as seen by the cycle breaker: cached endpoint node ids and the
self-loop flag. -/
structure CBEdge where
  srcNode : Nat
  dstNode : Nat
  isSelfLoop : Bool
  deriving DecidableEq, Repr

/-- The layerless graph handed to `GreedyCycleBreaker.process`: nodes are
the ids `0 .. nodeCount-1` in insertion order (so `initial_order` is the id
itself), `ports` lists each node's ports in `iterPorts` order, and edges
are identified by their index in `edges`. -/
structure CBGraph where
  nodeCount : Nat
  ports : List (List CBPort)
  edges : List CBEdge
  deriving DecidableEq, Repr

def nodePorts (g : CBGraph) (n : Nat) : List CBPort := g.ports.getD n []

def edgeAt (g : CBGraph) (i : Nat) : CBEdge := g.edges.getD i ⟨0, 0, false⟩

/-- Node-id-indexed integer attribute array (`mark`, `indeg`, `outdeg`). -/
def iget (l : List Int) (i : Nat) : Int := l.getD i 0

def iset (l : List Int) (i : Nat) (v : Int) : List Int := l.set i v

/-- Append of the repository's `UniqList` (module
`layeredGraphLayouter.uniqList`, absent from the source tree).  Modelled
from the spec: the cycle breaker "maintains three disjoint sets" of sinks,
sources and unresolved nodes, so appending an already-present node is a
no-op. -/
def uniqAppend (l : List Nat) (x : Nat) : List Nat :=
  if x ∈ l then l else l ++ [x]

/-- `LNode.initPortDegrees` for the cycle breaker: `(indeg, outdeg)` counts
of non-self-loop edges over the node's ports, as integers because the
algorithm decrements them below zero. -/
def initPortDegreesCB (g : CBGraph) (n : Nat) : Int × Int :=
  let ports := nodePorts g n
  (ports.foldl
    (fun acc p =>
      acc + ((p.incomingEdges.filter (fun i => !(edgeAt g i).isSelfLoop)).length : Int)) 0,
   ports.foldl
    (fun acc p =>
      acc + ((p.outgoingEdges.filter (fun i => !(edgeAt g i).isSelfLoop)).length : Int)) 0)

/-- The mutable state of `GreedyCycleBreaker.process`: per-node attribute
arrays, the sink/source `UniqList`s, the unresolved set (kept in insertion
order; the only order-sensitive operation on it, `max`, has distinct keys)
and the two rank counters. -/
structure CBState where
  mark : List Int
  indeg : List Int
  outdeg : List Int
  sinks : List Nat
  sources : List Nat
  unresolved : List Nat
  nextRight : Int
  nextLeft : Int
  deriving DecidableEq, Repr

/-- `GreedyCycleBreaker.initDegrees` plus the surrounding initialisation of
`process`: compute degrees and partition the nodes into sinks (`indeg ≠ 0,
outdeg = 0`), sources (`indeg = 0, outdeg ≠ 0`) and unresolved. -/
def initState (g : CBGraph) : CBState :=
  let ids := List.range g.nodeCount
  { mark := ids.map (fun _ => (0 : Int)),
    indeg := ids.map (fun n => (initPortDegreesCB g n).1),
    outdeg := ids.map (fun n => (initPortDegreesCB g n).2),
    sinks := ids.filter (fun n =>
      (initPortDegreesCB g n).1 ≠ 0 ∧ (initPortDegreesCB g n).2 = 0),
    sources := ids.filter (fun n =>
      (initPortDegreesCB g n).1 = 0 ∧ (initPortDegreesCB g n).2 ≠ 0),
    unresolved := ids.filter (fun n =>
      ¬((initPortDegreesCB g n).1 ≠ 0 ∧ (initPortDegreesCB g n).2 = 0) ∧
      ¬((initPortDegreesCB g n).1 = 0 ∧ (initPortDegreesCB g n).2 ≠ 0)),
    nextRight := -1,
    nextLeft := 1 }

/-- `GreedyCycleBreaker.updateNeighbors`: simulate removal of `node`,
decrementing the degrees of unmarked neighbours and moving exhausted ones
from the unresolved set into the source/sink lists.  `isOutput` is computed
once per port, as in the source. -/
def updateNeighbors (g : CBGraph) (node : Nat) (st : CBState) : CBState :=
  (nodePorts g node).foldl
    (fun st p =>
      let isOutput := p.outgoingEdges ≠ []
      ((p.incomingEdges ++ p.outgoingEdges).filter
          (fun i => !(edgeAt g i).isSelfLoop)).foldl
        (fun st i =>
          let e := edgeAt g i
          let other := if e.srcNode = node then e.dstNode else e.srcNode
          if iget st.mark other = 0 then
            if isOutput then
              let st' := { st with indeg := iset st.indeg other (iget st.indeg other - 1) }
              if iget st'.indeg other ≤ 0 ∧ iget st'.outdeg other > 0 then
                { st' with unresolved := st'.unresolved.erase other,
                           sources := uniqAppend st'.sources other }
              else st'
            else
              let st' := { st with outdeg := iset st.outdeg other (iget st.outdeg other - 1) }
              if iget st'.outdeg other ≤ 0 ∧ iget st'.indeg other > 0 then
                { st' with unresolved := st'.unresolved.erase other,
                           sinks := uniqAppend st'.sinks other }
              else st'
          else st)
        st)
    st

/-- The inner `while sinks:` loop — `list.pop()` pops the last element —
assigning descending negative ranks from the right. -/
def drainSinks (g : CBGraph) : Nat → CBState → CBState
  | 0, st => st
  | fuel + 1, st =>
    match st.sinks.getLast? with
    | none => st
    | some sink =>
      let st := { st with sinks := st.sinks.dropLast,
                          mark := iset st.mark sink st.nextRight,
                          nextRight := st.nextRight - 1 }
      drainSinks g fuel (updateNeighbors g sink st)

/-- The inner `while sources:` loop, assigning ascending positive ranks
from the left. -/
def drainSources (g : CBGraph) : Nat → CBState → CBState
  | 0, st => st
  | fuel + 1, st =>
    match st.sources.getLast? with
    | none => st
    | some source =>
      let st := { st with sources := st.sources.dropLast,
                          mark := iset st.mark source st.nextLeft,
                          nextLeft := st.nextLeft + 1 }
      drainSources g fuel (updateNeighbors g source st)

/-- The `max(unresolved, key=lambda n: (n.outdeg - n.indeg,
initial_order[n]))` call: the keys are lexicographic pairs and are distinct
(the initial order is injective), so the maximum is independent of the
set's iteration order. -/
def maxUnresolved (st : CBState) : Option Nat :=
  st.unresolved.foldl
    (fun best n =>
      match best with
      | none => some n
      | some b =>
        let keyN := (iget st.outdeg n - iget st.indeg n, (n : Int))
        let keyB := (iget st.outdeg b - iget st.indeg b, (b : Int))
        if keyB.1 < keyN.1 ∨ (keyB.1 = keyN.1 ∧ keyB.2 < keyN.2) then some n else some b)
    none

/-- The outer `while sinks or sources or unresolved:` loop of `process`,
with explicit fuel (each iteration marks at least one node, so any fuel
of at least `nodeCount + 1` reaches the fixed point). -/
def cbOuter (g : CBGraph) : Nat → CBState → CBState
  | 0, st => st
  | fuel + 1, st =>
    if st.sinks = [] ∧ st.sources = [] ∧ st.unresolved = [] then st
    else
      let st1 := drainSinks g (fuel + 1) st
      let st2 := drainSources g (fuel + 1) st1
      let st3 :=
        if st2.sinks = [] ∧ st2.sources = [] ∧ st2.unresolved ≠ [] then
          match maxUnresolved st2 with
          | some maxNode =>
            let st2' := { st2 with mark := iset st2.mark maxNode st2.nextLeft,
                                   unresolved := st2.unresolved.erase maxNode,
                                   nextLeft := st2.nextLeft + 1 }
            updateNeighbors g maxNode st2'
          | none => st2
        else st2
      cbOuter g fuel st3

/-- Mark assignment of `process`: run the loop, then shift negative ranks
by `len(nodes) + 1` so all ranks are positive. -/
def assignMarks (g : CBGraph) (fuel : Nat) : List Int :=
  let st := cbOuter g fuel (initState g)
  let shiftBase : Int := (g.nodeCount : Int) + 1
  st.mark.map (fun m => if m < 0 then m + shiftBase else m)

/-- The edges hit by the final reversal loop of `process` (`for node: for
port: for edge in port.outgoingEdges: if node.mark > edge.dstNode.mark`),
in iteration order. -/
def edgesToReverse (g : CBGraph) (marks : List Int) : List Nat :=
  (List.range g.nodeCount).flatMap
    (fun n =>
      (nodePorts g n).flatMap
        (fun p =>
          p.outgoingEdges.filter
            (fun i => iget marks (edgeAt g i).dstNode < iget marks n)))

/-- `GreedyCycleBreaker.process`: for every edge that points right-to-left
in the computed ranking the source executes `edge.reverse()`; but
`LEdge.reverse(self, layeredGraph, adaptPorts)` takes two required
positional arguments, so the first such edge raises a `TypeError` and the
processor never completes. -/
def process (g : CBGraph) (fuel : Nat) : Except String (List Int) :=
  let marks := assignMarks g fuel
  match edgesToReverse g marks with
  | [] => .ok marks
  | _ :: _ =>
    .error "TypeError: reverse() missing 2 required positional arguments"

/-- The two-node direct circle of `cycleBreaker_test.test_direct_circle`:
edge 0 runs from node 0 to node 1 and edge 1 back; each node has an EAST
output port and a WEST input port. -/
def cbTwoCycle : CBGraph :=
  { nodeCount := 2,
    ports := [[⟨[], [0]⟩, ⟨[1], []⟩], [⟨[], [1]⟩, ⟨[0], []⟩]],
    edges := [⟨0, 1, false⟩, ⟨1, 0, false⟩] }

/-- Claim C1: on the direct two-node cycle the greedy ranking marks node 0
with 2 and node 1 with 1, so edge 0 (node 0 → node 1) satisfies the
reversal condition — exactly the edge the repository's own
`test_direct_circle` expects to come back reversed — and `process` then
calls `edge.reverse()` without the two required positional arguments,
raising a `TypeError` instead of reversing it. -/
theorem C1_cycle_breaker_reverse_type_error :
    assignMarks cbTwoCycle 8 = [2, 1] ∧
      edgesToReverse cbTwoCycle (assignMarks cbTwoCycle 8) = [0] ∧
      process cbTwoCycle 8 =
        .error "TypeError: reverse() missing 2 required positional arguments" :=
  ⟨rfl, rfl, rfl⟩

end GreedyCycleBreaker

/-! ## Edge & layer-constraint reverser
(`edgeManipulators/edgeAndLayerConstraintEdgeReverser.py`, checks of
`nodeManipulators/layerConstraintProcessor.py`)

Edges are modelled without labels and without collector ports
(`inputCollect = False` everywhere), so `LEdge.reverse(graph, True)` swaps
the endpoint ports, swaps the cached nodes and flips the reversed flag. -/

namespace EdgeReverser

/-- Enum `LayerConstraint` of `containers/constants.py`. -/
inductive LayerConstraint
  | NONE
  | FIRST
  | FIRST_SEPARATE
  | LAST
  | LAST_SEPARATE
  deriving DecidableEq, Repr

/-- Enum `NodeType` of `containers/constants.py`. -/
inductive NodeType
  | NORMAL
  | LONG_EDGE
  | EXTERNAL_PORT
  | NORTH_SOUTH_PORT
  | LABEL
  | BIG_NODE
  | BREAKING_POINT
  deriving DecidableEq, Repr

/-- Enum `PortSide` of `containers/constants.py`. -/
inductive PortSide
  | EAST
  | WEST
  | SOUTH
  | NORTH
  deriving DecidableEq, Repr

/-- Enum `PortConstraints` of `containers/constants.py`. -/
inductive PortConstraints
  | UNDEFINED
  | FREE
  | FIXED_SIDE
  | FIXED_ORDER
  | FIXED_RATIO
  | FIXED_POS
  deriving DecidableEq, Repr

/-- Method `PortConstraints.isSideFixed`: literally
`self == FREE or self != UNDEFINED`. -/
def PortConstraints.isSideFixed (c : PortConstraints) : Bool :=
  decide (c = PortConstraints.FREE) || decide (c ≠ PortConstraints.UNDEFINED)

/-- The node attributes read by the reverser; ports are identified by their
index in `portSides`. -/
structure RNode where
  layeringLayerConstraint : LayerConstraint
  type : NodeType
  portConstraints : PortConstraints
  portSides : List PortSide
  deriving DecidableEq, Repr

/-- The graph handed to `EdgeAndLayerConstraintEdgeReverser.process`:
`layeredGraph.nodes` in iteration order, node ids being list positions. -/
structure RGraph where
  nodes : List RNode
  deriving DecidableEq, Repr

def defaultRNode : RNode :=
  ⟨LayerConstraint.NONE, NodeType.NORMAL, PortConstraints.UNDEFINED, []⟩

def nodeAt (g : RGraph) (n : Nat) : RNode := g.nodes.getD n defaultRNode

/-- An edge: endpoint `(node, port)` references plus the reversed flag. -/
structure REdge where
  srcNode : Nat
  srcPort : Nat
  dstNode : Nat
  dstPort : Nat
  reversed : Bool
  deriving DecidableEq, Repr

def defaultREdge : REdge := ⟨0, 0, 0, 0, false⟩

def eAt (es : List REdge) (i : Nat) : REdge := es.getD i defaultREdge

/-- `LEdge.reverse(layeredGraph, True)` without collector ports: the new
source is the old target port and vice versa; the reversed flag flips. -/
def reversedEdge (e : REdge) : REdge :=
  ⟨e.dstNode, e.dstPort, e.srcNode, e.srcPort, !e.reversed⟩

/-- Method `canReverseIncomingEdge(nodeLayerConstraint, edge)`. -/
def canReverseIncomingEdge (g : RGraph) (nodeLayerConstraint : LayerConstraint)
    (e : REdge) : Bool :=
  if e.reversed then false
  else if nodeLayerConstraint = LayerConstraint.FIRST then
    if (nodeAt g e.srcNode).type = NodeType.LABEL then false
    else if (nodeAt g e.srcNode).layeringLayerConstraint = LayerConstraint.FIRST_SEPARATE then
      false
    else true
  else true

/-- Method `canReverseOutgoingEdge(nodeLayerConstraint, edge)`. -/
def canReverseOutgoingEdge (g : RGraph) (nodeLayerConstraint : LayerConstraint)
    (e : REdge) : Bool :=
  if e.reversed then false
  else if nodeLayerConstraint = LayerConstraint.LAST then
    if (nodeAt g e.dstNode).type = NodeType.LABEL then false
    else if (nodeAt g e.dstNode).layeringLayerConstraint = LayerConstraint.LAST_SEPARATE then
      false
    else true
  else true

/-- The incoming-edge pass of `reverseEdges` at one port: snapshot the
port's incoming edges, reverse each one `canReverseIncomingEdge` allows. -/
def reverseIncomingAtPort (g : RGraph) (c : LayerConstraint) (n p : Nat)
    (es : List REdge) : List REdge :=
  let candidates := (List.range es.length).filter
    (fun j => (eAt es j).dstNode = n ∧ (eAt es j).dstPort = p)
  candidates.foldl
    (fun es j =>
      if canReverseIncomingEdge g c (eAt es j) then es.set j (reversedEdge (eAt es j))
      else es)
    es

/-- The outgoing-edge pass of `reverseEdges` at one port. -/
def reverseOutgoingAtPort (g : RGraph) (c : LayerConstraint) (n p : Nat)
    (es : List REdge) : List REdge :=
  let candidates := (List.range es.length).filter
    (fun j => (eAt es j).srcNode = n ∧ (eAt es j).srcPort = p)
  candidates.foldl
    (fun es j =>
      if canReverseOutgoingEdge g c (eAt es j) then es.set j (reversedEdge (eAt es j))
      else es)
    es

/-- `reverseEdges(graph, node, c, PortType.INPUT)` — the call made for
FIRST/FIRST_SEPARATE nodes: only incoming edges are examined. -/
def reverseEdgesIncoming (g : RGraph) (c : LayerConstraint) (n : Nat)
    (es : List REdge) : List REdge :=
  (List.range (nodeAt g n).portSides.length).foldl
    (fun es p => reverseIncomingAtPort g c n p es) es

/-- `reverseEdges(graph, node, c, PortType.OUTPUT)` — the call made for
LAST/LAST_SEPARATE nodes: only outgoing edges are examined. -/
def reverseEdgesOutgoing (g : RGraph) (c : LayerConstraint) (n : Nat)
    (es : List REdge) : List REdge :=
  (List.range (nodeAt g n).portSides.length).foldl
    (fun es p => reverseOutgoingAtPort g c n p es) es

def inCount (es : List REdge) (n p : Nat) : Nat :=
  (es.filter (fun e => e.dstNode = n ∧ e.dstPort = p)).length

def outCount (es : List REdge) (n p : Nat) : Nat :=
  (es.filter (fun e => e.srcNode = n ∧ e.srcPort = p)).length

/-- `LPort.getNetFlow`: incoming minus outgoing edge count. -/
def netFlow (es : List REdge) (n p : Nat) : Int :=
  (inCount es n p : Int) - (outCount es n p : Int)

/-- The `allPortsReversed` scan of the feedback branch of `process`.  A
port failing the net-flow test breaks the scan with `False`.  A WEST port
that passes has outgoing edges (its net flow is negative), and the loop
over them reads `e.dstNode.layeringlayerConstraint` — a misspelt attribute
that no object has — raising `AttributeError`.  An EAST port's incoming
edges may clear the flag without breaking the outer loop. -/
def feedbackScan (g : RGraph) (es : List REdge) (n : Nat) :
    List (Nat × PortSide) → Bool → Except String Bool
  | [], allPortsReversed => .ok allPortsReversed
  | (p, side) :: rest, allPortsReversed =>
    if ¬(side = PortSide.EAST ∧ netFlow es n p > 0 ∨
        side = PortSide.WEST ∧ netFlow es n p < 0) then
      .ok false
    else if side = PortSide.WEST ∧ outCount es n p ≠ 0 then
      .error "AttributeError: LNode object has no attribute layeringlayerConstraint"
    else
      let allPortsReversed' :=
        if side = PortSide.EAST ∧ es.any (fun e => e.dstNode = n ∧ e.dstPort = p ∧
            ((nodeAt g e.srcNode).layeringLayerConstraint = LayerConstraint.FIRST ∨
             (nodeAt g e.srcNode).layeringLayerConstraint = LayerConstraint.FIRST_SEPARATE))
        then false else allPortsReversed
      feedbackScan g es n rest allPortsReversed'

/-- Handling of one node in `process`: FIRST-like constraints reverse
incoming edges, LAST-like reverse outgoing ones; unconstrained nodes with
fixed port sides run the feedback scan, whose completed `allPortsReversed`
case evaluates `PortType.UNDEFINED` — an enum member that does not exist —
raising `AttributeError`. -/
def processNode (g : RGraph) (n : Nat) (es : List REdge) :
    Except String (List REdge) :=
  let c := (nodeAt g n).layeringLayerConstraint
  if c = LayerConstraint.FIRST ∨ c = LayerConstraint.FIRST_SEPARATE then
    .ok (reverseEdgesIncoming g c n es)
  else if c = LayerConstraint.LAST ∨ c = LayerConstraint.LAST_SEPARATE then
    .ok (reverseEdgesOutgoing g c n es)
  else if (nodeAt g n).portConstraints.isSideFixed then
    match feedbackScan g es n (nodeAt g n).portSides.enum true with
    | .error s => .error s
    | .ok true => .error "AttributeError: type object PortType has no attribute UNDEFINED"
    | .ok false => .ok es
  else
    .ok es

def processNodes (g : RGraph) : List Nat → List REdge → Except String (List REdge)
  | [], es => .ok es
  | n :: rest, es =>
    match processNode g n es with
    | .ok es' => processNodes g rest es'
    | .error s => .error s

/-- Method `EdgeAndLayerConstraintEdgeReverser.process`: iterate over the
graph's nodes. -/
def processReverser (g : RGraph) (es : List REdge) : Except String (List REdge) :=
  processNodes g (List.range g.nodes.length) es

/-- Method `LayerConstraintProcessor.isAcceptableIncomingEdge` (the
downstream check): an incoming edge of a FIRST node is acceptable when both
endpoints are external-port dummies, or the source is FIRST_SEPARATE, or
the source is a label dummy. -/
def isAcceptableIncomingEdge (g : RGraph) (e : REdge) : Bool :=
  if (nodeAt g e.srcNode).type = NodeType.EXTERNAL_PORT ∧
      (nodeAt g e.dstNode).type = NodeType.EXTERNAL_PORT then true
  else if (nodeAt g e.srcNode).layeringLayerConstraint = LayerConstraint.FIRST_SEPARATE then
    true
  else decide ((nodeAt g e.srcNode).type = NodeType.LABEL)

/-- Method `LayerConstraintProcessor.throwUpUnlessNoIncomingEdges` for a
FIRST node (`allowFromFirstSeparate = True`): raises
`UnsupportedConfigurationException` at the first unacceptable incoming
edge. -/
def throwUpUnlessNoIncomingEdges (g : RGraph) (es : List REdge) (n : Nat) :
    Except String Unit :=
  if es.any (fun e => e.dstNode = n ∧ !isAcceptableIncomingEdge g e) then
    .error "UnsupportedConfigurationException: node has layer constraint FIRST but an incoming edge"
  else
    .ok ()

theorem eAt_set_ne (es : List REdge) (j i : Nat) (v : REdge) (h : j ≠ i) :
    eAt (es.set j v) i = eAt es i := by
  simp [eAt, List.getD, List.getElem?_set_ne h]

theorem reverseIncoming_fold_preserve (g : RGraph) (c : LayerConstraint)
    (n i : Nat) (e0 : REdge) (cl : List Nat) (es : List REdge)
    (hmem : ∀ j ∈ cl, j = i → e0.dstNode = n)
    (hP : eAt es i = e0)
    (hsafe : e0.dstNode = n → canReverseIncomingEdge g c e0 = false) :
    eAt (cl.foldl
      (fun es j =>
        if canReverseIncomingEdge g c (eAt es j) then es.set j (reversedEdge (eAt es j))
        else es)
      es) i = e0 := by
  induction cl generalizing es with
  | nil => exact hP
  | cons j rest ih =>
    simp only [List.foldl_cons]
    by_cases hji : j = i
    · subst hji
      rw [hP, hsafe (hmem j (List.mem_cons_self _ _) rfl)]
      exact ih es (fun k hk => hmem k (List.mem_cons_of_mem _ hk)) hP
    · by_cases hrev : canReverseIncomingEdge g c (eAt es j) = true
      · rw [if_pos hrev]
        exact ih _ (fun k hk => hmem k (List.mem_cons_of_mem _ hk))
          ((eAt_set_ne es j i _ hji).trans hP)
      · rw [if_neg hrev]
        exact ih es (fun k hk => hmem k (List.mem_cons_of_mem _ hk)) hP

theorem reverseOutgoing_fold_preserve (g : RGraph) (c : LayerConstraint)
    (n i : Nat) (e0 : REdge) (cl : List Nat) (es : List REdge)
    (hmem : ∀ j ∈ cl, j = i → e0.srcNode = n)
    (hP : eAt es i = e0)
    (hsafe : e0.srcNode = n → canReverseOutgoingEdge g c e0 = false) :
    eAt (cl.foldl
      (fun es j =>
        if canReverseOutgoingEdge g c (eAt es j) then es.set j (reversedEdge (eAt es j))
        else es)
      es) i = e0 := by
  induction cl generalizing es with
  | nil => exact hP
  | cons j rest ih =>
    simp only [List.foldl_cons]
    by_cases hji : j = i
    · subst hji
      rw [hP, hsafe (hmem j (List.mem_cons_self _ _) rfl)]
      exact ih es (fun k hk => hmem k (List.mem_cons_of_mem _ hk)) hP
    · by_cases hrev : canReverseOutgoingEdge g c (eAt es j) = true
      · rw [if_pos hrev]
        exact ih _ (fun k hk => hmem k (List.mem_cons_of_mem _ hk))
          ((eAt_set_ne es j i _ hji).trans hP)
      · rw [if_neg hrev]
        exact ih es (fun k hk => hmem k (List.mem_cons_of_mem _ hk)) hP

theorem reverseIncomingAtPort_preserve (g : RGraph) (c : LayerConstraint)
    (n p i : Nat) (e0 : REdge) (es : List REdge) (hP : eAt es i = e0)
    (hsafe : e0.dstNode = n → canReverseIncomingEdge g c e0 = false) :
    eAt (reverseIncomingAtPort g c n p es) i = e0 := by
  unfold reverseIncomingAtPort
  refine reverseIncoming_fold_preserve g c n i e0 _ es ?_ hP hsafe
  intro j hj hji
  subst hji
  have := List.of_mem_filter hj
  simp only [decide_eq_true_eq] at this
  rw [hP] at this
  exact this.1

theorem reverseOutgoingAtPort_preserve (g : RGraph) (c : LayerConstraint)
    (n p i : Nat) (e0 : REdge) (es : List REdge) (hP : eAt es i = e0)
    (hsafe : e0.srcNode = n → canReverseOutgoingEdge g c e0 = false) :
    eAt (reverseOutgoingAtPort g c n p es) i = e0 := by
  unfold reverseOutgoingAtPort
  refine reverseOutgoing_fold_preserve g c n i e0 _ es ?_ hP hsafe
  intro j hj hji
  subst hji
  have := List.of_mem_filter hj
  simp only [decide_eq_true_eq] at this
  rw [hP] at this
  exact this.1

theorem reverseEdgesIncoming_preserve (g : RGraph) (c : LayerConstraint)
    (n i : Nat) (e0 : REdge) (es : List REdge) (hP : eAt es i = e0)
    (hsafe : e0.dstNode = n → canReverseIncomingEdge g c e0 = false) :
    eAt (reverseEdgesIncoming g c n es) i = e0 := by
  unfold reverseEdgesIncoming
  generalize (List.range (nodeAt g n).portSides.length) = pl
  induction pl generalizing es with
  | nil => exact hP
  | cons p rest ih =>
    simp only [List.foldl_cons]
    exact ih _ (reverseIncomingAtPort_preserve g c n p i e0 es hP hsafe)

theorem reverseEdgesOutgoing_preserve (g : RGraph) (c : LayerConstraint)
    (n i : Nat) (e0 : REdge) (es : List REdge) (hP : eAt es i = e0)
    (hsafe : e0.srcNode = n → canReverseOutgoingEdge g c e0 = false) :
    eAt (reverseEdgesOutgoing g c n es) i = e0 := by
  unfold reverseEdgesOutgoing
  generalize (List.range (nodeAt g n).portSides.length) = pl
  induction pl generalizing es with
  | nil => exact hP
  | cons p rest ih =>
    simp only [List.foldl_cons]
    exact ih _ (reverseOutgoingAtPort_preserve g c n p i e0 es hP hsafe)

theorem processNode_ok_preserve (g : RGraph) (n i : Nat) (e0 : REdge)
    (es : List REdge) (hP : eAt es i = e0)
    (h1 : ∀ m, (nodeAt g m).layeringLayerConstraint = LayerConstraint.NONE →
      (nodeAt g m).portConstraints = PortConstraints.UNDEFINED)
    (hdst : (nodeAt g e0.dstNode).layeringLayerConstraint = LayerConstraint.FIRST)
    (hsrc : (nodeAt g e0.srcNode).layeringLayerConstraint = LayerConstraint.NONE)
    (hforb : (nodeAt g e0.srcNode).type = NodeType.LABEL ∨ e0.reversed = true) :
    ∃ es', processNode g n es = .ok es' ∧ eAt es' i = e0 := by
  unfold processNode
  by_cases hcF : (nodeAt g n).layeringLayerConstraint = LayerConstraint.FIRST ∨
      (nodeAt g n).layeringLayerConstraint = LayerConstraint.FIRST_SEPARATE
  · rw [if_pos hcF]
    refine ⟨_, rfl, ?_⟩
    refine reverseEdgesIncoming_preserve g _ n i e0 es hP ?_
    intro hdn
    rw [hdn] at hdst
    rw [hdst]
    unfold canReverseIncomingEdge
    rcases hforb with hlab | hrev
    · by_cases hr : e0.reversed
      · simp [hr]
      · simp [hr, hlab]
    · simp [hrev]
  · rw [if_neg hcF]
    by_cases hcL : (nodeAt g n).layeringLayerConstraint = LayerConstraint.LAST ∨
        (nodeAt g n).layeringLayerConstraint = LayerConstraint.LAST_SEPARATE
    · rw [if_pos hcL]
      refine ⟨_, rfl, ?_⟩
      refine reverseEdgesOutgoing_preserve g _ n i e0 es hP ?_
      intro hsn
      rw [hsn] at hsrc
      rcases hcL with h | h <;> rw [h] at hsrc <;> cases hsrc
    · rw [if_neg hcL]
      have hNone : (nodeAt g n).layeringLayerConstraint = LayerConstraint.NONE := by
        rcases hc : (nodeAt g n).layeringLayerConstraint with _ | _ | _ | _ | _
        · rfl
        · exact absurd (Or.inl hc) hcF
        · exact absurd (Or.inr hc) hcF
        · exact absurd (Or.inl hc) hcL
        · exact absurd (Or.inr hc) hcL
      have hpc := h1 n hNone
      have hside : (nodeAt g n).portConstraints.isSideFixed = false := by
        rw [hpc]
        rfl
      rw [hside]
      exact ⟨es, by simp, hP⟩

theorem processNodes_ok_preserve (g : RGraph) (l : List Nat) (i : Nat)
    (e0 : REdge) (es : List REdge) (hP : eAt es i = e0)
    (h1 : ∀ m, (nodeAt g m).layeringLayerConstraint = LayerConstraint.NONE →
      (nodeAt g m).portConstraints = PortConstraints.UNDEFINED)
    (hdst : (nodeAt g e0.dstNode).layeringLayerConstraint = LayerConstraint.FIRST)
    (hsrc : (nodeAt g e0.srcNode).layeringLayerConstraint = LayerConstraint.NONE)
    (hforb : (nodeAt g e0.srcNode).type = NodeType.LABEL ∨ e0.reversed = true) :
    ∃ es', processNodes g l es = .ok es' ∧ eAt es' i = e0 := by
  induction l generalizing es with
  | nil => exact ⟨es, rfl, hP⟩
  | cons n rest ih =>
    obtain ⟨es1, hok, hP1⟩ := processNode_ok_preserve g n i e0 es hP h1 hdst hsrc hforb
    obtain ⟨es2, hok2, hP2⟩ := ih es1 hP1
    refine ⟨es2, ?_, hP2⟩
    unfold processNodes
    rw [hok]
    exact hok2

/-- Claim C7, amended: the reverser itself never raises.  For a graph whose
unconstrained nodes have `UNDEFINED` port constraints (so the feedback
branch is skipped), an incoming edge of a FIRST-constrained node that
cannot be normalised by reversal — its source is a label dummy, or it is
already reversed — survives `process` unchanged, and `process` returns
normally; the `UnsupportedConfigurationException` is raised only later, by
`LayerConstraintProcessor.throwUpUnlessNoIncomingEdges`. -/
theorem C7_reverser_never_raises (g : RGraph) (es : List REdge) (i : Nat)
    (h1 : ∀ m, (nodeAt g m).layeringLayerConstraint = LayerConstraint.NONE →
      (nodeAt g m).portConstraints = PortConstraints.UNDEFINED)
    (hdst : (nodeAt g (eAt es i).dstNode).layeringLayerConstraint = LayerConstraint.FIRST)
    (hsrc : (nodeAt g (eAt es i).srcNode).layeringLayerConstraint = LayerConstraint.NONE)
    (hforb : (nodeAt g (eAt es i).srcNode).type = NodeType.LABEL ∨
      (eAt es i).reversed = true) :
    ∃ es', processReverser g es = .ok es' ∧ eAt es' i = eAt es i :=
  processNodes_ok_preserve g (List.range g.nodes.length) i (eAt es i) es rfl
    h1 hdst hsrc hforb

/-- Concrete graph for C7: node 0 is FIRST-constrained with one WEST port;
node 1 is an unconstrained NORMAL node with one EAST port. -/
def cRG : RGraph :=
  ⟨[⟨LayerConstraint.FIRST, NodeType.NORMAL, PortConstraints.UNDEFINED, [PortSide.WEST]⟩,
    ⟨LayerConstraint.NONE, NodeType.NORMAL, PortConstraints.UNDEFINED, [PortSide.EAST]⟩]⟩

/-- Concrete edge list for C7: one already-reversed edge from node 1 into
the FIRST node 0 — a forbidden incident edge that cannot be normalised. -/
def cEs : List REdge := [⟨1, 0, 0, 0, true⟩]

/-- Claim C7, counterexample: the FIRST node's incoming edge is forbidden
(the downstream acceptability check rejects it) and cannot be normalised
(`canReverseIncomingEdge` refuses an already-reversed edge), yet
`EdgeAndLayerConstraintEdgeReverser.process` completes normally and leaves
the edge in place — it raises no `UnsupportedConfigurationException`; that
exception comes only from the downstream `LayerConstraintProcessor`. -/
theorem C7_counterexample :
    canReverseIncomingEdge cRG LayerConstraint.FIRST (eAt cEs 0) = false ∧
      isAcceptableIncomingEdge cRG (eAt cEs 0) = false ∧
      processReverser cRG cEs = .ok cEs ∧
      throwUpUnlessNoIncomingEdges cRG cEs 0 =
        .error "UnsupportedConfigurationException: node has layer constraint FIRST but an incoming edge" :=
  ⟨rfl, rfl, rfl, rfl⟩

/-- Witness for `C7_reverser_never_raises` at the concrete graph. -/
theorem C7_reverser_never_raises_witness :
    ∃ es', processReverser cRG cEs = .ok es' ∧ eAt es' 0 = eAt cEs 0 := by
  refine C7_reverser_never_raises cRG cEs 0 ?_ ?_ ?_ ?_
  · intro m hm
    match m with
    | 0 => cases hm
    | 1 => rfl
    | Nat.succ (Nat.succ k) => rfl
  · rfl
  · rfl
  · exact Or.inr rfl

end EdgeReverser

/-! ## Long-edge splitter (`edgeManipulators/longEdgeSplitter.py`)

The splitter is modelled at the node/layer level: an edge carries its
cached endpoint nodes (`srcNode`, `dstNode`); `createDummyNode` appends a
fresh node to the graph's node table (its id is the current table length)
and to the target layer, setting its layer back-pointer; `splitEdge`
retargets the split edge to the dummy and appends the new edge from the
dummy to the old target.  Port geometry, thickness and label migration do
not affect layer indices and are not modelled. -/

namespace LongEdgeSplitter

/-- An edge as seen by the splitter: cached endpoint node ids. -/
structure SEdge where
  src : Nat
  dst : Nat
  deriving DecidableEq, Repr

/-- The layered graph: layers of node ids, the node table mapping each node
id to its layer back-pointer (`LNode.layer`), and the edge list. -/
structure SGraph where
  layers : List (List Nat)
  layerOf : List (Option Nat)
  edges : List SEdge
  deriving DecidableEq, Repr

def defaultSEdge : SEdge := ⟨0, 0⟩

def sEdgeAt (g : SGraph) (j : Nat) : SEdge := g.edges.getD j defaultSEdge

/-- The layer back-pointer of node `n` (`none` for unknown ids). -/
def layerOfD (g : SGraph) (n : Nat) : Option Nat := g.layerOf.getD n none

/-- `createDummyNode` + `splitEdge` for edge index `j` with the dummy
placed in layer `k`: the dummy node is appended to the node table and to
layer `k`; the edge is retargeted to the dummy (`edge.setTarget`); the new
edge from the dummy to the old target is appended (`add_edge`). -/
def splitEdge (g : SGraph) (j k : Nat) : SGraph :=
  let e := sEdgeAt g j
  let dummy := g.layerOf.length
  { layers := g.layers.set k (g.layers.getD k [] ++ [dummy]),
    layerOf := g.layerOf ++ [some k],
    edges := (g.edges.set j ⟨e.src, dummy⟩) ++ [⟨dummy, e.dst⟩] }

/-- The body of the edge loop of `process` while handling layer `i`: split
edge `j` if its target layer is neither the current layer `i` nor the next
layer `i + 1`. -/
def splitStep (g : SGraph) (i j : Nat) : SGraph :=
  match layerOfD g (sEdgeAt g j).dst with
  | some tl => if tl ≠ i ∧ tl ≠ i + 1 then splitEdge g j (i + 1) else g
  | none => g

/-- The edge loop of `process` for one node `n` of layer `i`: examine every
outgoing edge of `n` (the snapshot of the node's ports' outgoing lists —
splitting retargets an edge in place and appends the new edge to the fresh
dummy's port, so the snapshot is exactly the edges with source `n`). -/
def processNodeEdges (g : SGraph) (i n : Nat) : SGraph :=
  let candidates := (List.range g.edges.length).filter
    (fun j => (sEdgeAt g j).src = n)
  candidates.foldl (fun g j => splitStep g i j) g

/-- One iteration of the layer loop of `process`: handle every node of
layer `i` (the list of layer `i` is unchanged while it is processed;
dummies are appended to layer `i + 1`). -/
def processLayer (g : SGraph) (i : Nat) : SGraph :=
  (g.layers.getD i []).foldl (fun g n => processNodeEdges g i n) g

def processPairs (g : SGraph) : List Nat → SGraph
  | [] => g
  | i :: rest => processPairs (processLayer g i) rest

/-- Method `LongEdgeSplitter.process`: nothing to do for at most two
layers, otherwise walk the consecutive `(layer, nextLayer)` pairs. -/
def process (g : SGraph) : SGraph :=
  if g.layers.length ≤ 2 then g
  else processPairs g (List.range (g.layers.length - 1))

/-- Well-formedness: the layer lists and the per-node back-pointers agree
(spec invariant I4), and the graph has `L` layers. -/
def WF (g : SGraph) (L : Nat) : Prop :=
  g.layers.length = L ∧
  (∀ idx, idx < L → ∀ n ∈ g.layers.getD idx [], layerOfD g n = some idx) ∧
  (∀ n idx, layerOfD g n = some idx → idx < L ∧ n ∈ g.layers.getD idx [])

/-- Proper input layering: every edge points strictly forward between
existing layers (spec invariant I6 after cycle breaking and layering). -/
def OkEdges (g : SGraph) (L : Nat) : Prop :=
  ∀ e ∈ g.edges, ∃ s t, layerOfD g e.src = some s ∧ layerOfD g e.dst = some t ∧
    s < t ∧ t < L

/-- All edges leaving a layer below `k` already span exactly one gap. -/
def Spans1Below (g : SGraph) (k : Nat) : Prop :=
  ∀ e ∈ g.edges, ∀ s, layerOfD g e.src = some s → s < k →
    layerOfD g e.dst = some (s + 1)

theorem layerOfD_lt_length {g : SGraph} {n v : Nat} (h : layerOfD g n = some v) :
    n < g.layerOf.length := by
  by_contra hn
  rw [layerOfD] at h
  simp [List.getD, List.getElem?_eq_none (show g.layerOf.length ≤ n by omega)] at h

theorem listGetD_append_left {α : Type} (l l' : List α) (d : α) (i : Nat)
    (h : i < l.length) : (l ++ l').getD i d = l.getD i d := by
  simp [List.getD, List.getElem?_append_left h]

theorem listGetD_append_self {α : Type} (l : List α) (x d : α) :
    (l ++ [x]).getD l.length d = x := by
  simp [List.getD]

theorem listGetD_set_self {α : Type} (l : List α) (i : Nat) (v d : α)
    (h : i < l.length) : (l.set i v).getD i d = v := by
  simp [List.getD, List.getElem?_set_self h]

theorem listGetD_set_ne {α : Type} (l : List α) (i j : Nat) (v d : α)
    (h : i ≠ j) : (l.set i v).getD j d = l.getD j d := by
  simp [List.getD, List.getElem?_set_ne h]

theorem splitEdge_layerOf_ext {g : SGraph} (j k : Nat) {m v : Nat}
    (h : layerOfD g m = some v) : layerOfD (splitEdge g j k) m = some v := by
  rw [layerOfD, splitEdge]
  rw [listGetD_append_left _ _ _ _ (layerOfD_lt_length h)]
  exact h

theorem splitEdge_layerOf_dummy (g : SGraph) (j k : Nat) :
    layerOfD (splitEdge g j k) g.layerOf.length = some k := by
  rw [layerOfD, splitEdge]
  exact listGetD_append_self _ _ _

theorem splitEdge_layerOf_length (g : SGraph) (j k : Nat) :
    (splitEdge g j k).layerOf.length = g.layerOf.length + 1 := by
  simp [splitEdge]

theorem splitEdge_edges_length (g : SGraph) (j k : Nat) :
    (splitEdge g j k).edges.length = g.edges.length + 1 := by
  simp [splitEdge]

theorem splitEdge_edge_other {g : SGraph} (j k : Nat) {i : Nat}
    (hne : i ≠ j) (hi : i < g.edges.length) :
    sEdgeAt (splitEdge g j k) i = sEdgeAt g i := by
  rw [sEdgeAt, splitEdge]
  rw [listGetD_append_left _ _ _ _ (by simpa using hi)]
  exact listGetD_set_ne _ _ _ _ _ (fun h => hne h.symm)

theorem splitEdge_edge_self {g : SGraph} (k : Nat) {j : Nat}
    (hj : j < g.edges.length) :
    sEdgeAt (splitEdge g j k) j = ⟨(sEdgeAt g j).src, g.layerOf.length⟩ := by
  rw [sEdgeAt, splitEdge]
  rw [listGetD_append_left _ _ _ _ (by simpa using hj)]
  exact listGetD_set_self _ _ _ _ (by simpa using hj)

theorem splitEdge_edge_new (g : SGraph) (j k : Nat) :
    sEdgeAt (splitEdge g j k) g.edges.length = ⟨g.layerOf.length, (sEdgeAt g j).dst⟩ := by
  rw [sEdgeAt, splitEdge]
  dsimp only
  rw [show g.edges.length =
    (g.edges.set j (⟨(sEdgeAt g j).src, g.layerOf.length⟩ : SEdge)).length by simp]
  exact listGetD_append_self _ _ _

theorem splitEdge_WF {g : SGraph} {L : Nat} (j : Nat) {k : Nat}
    (hwf : WF g L) (hk : k < L) : WF (splitEdge g j k) L := by
  obtain ⟨hL, hW2, hW3⟩ := hwf
  have hkl : k < g.layers.length := by omega
  have hlayers : (splitEdge g j k).layers =
      g.layers.set k (g.layers.getD k [] ++ [g.layerOf.length]) := rfl
  have hgetk : (splitEdge g j k).layers.getD k [] =
      g.layers.getD k [] ++ [g.layerOf.length] := by
    rw [hlayers]
    exact listGetD_set_self _ _ _ _ hkl
  have hgetne : ∀ idx, idx ≠ k →
      (splitEdge g j k).layers.getD idx [] = g.layers.getD idx [] := by
    intro idx hne
    rw [hlayers]
    exact listGetD_set_ne _ _ _ _ _ (fun h => hne h.symm)
  refine ⟨by rw [hlayers]; simp [hL], ?_, ?_⟩
  · intro idx hidx n hn
    by_cases hik : idx = k
    · rw [hik] at hn ⊢
      rw [hgetk] at hn
      rcases List.mem_append.mp hn with hmem | hmem
      · exact splitEdge_layerOf_ext j k (hW2 k hk n hmem)
      · rw [List.mem_singleton] at hmem
        rw [hmem]
        exact splitEdge_layerOf_dummy g j k
    · rw [hgetne idx hik] at hn
      exact splitEdge_layerOf_ext j k (hW2 idx hidx n hn)
  · intro n idx h
    by_cases hn : n = g.layerOf.length
    · rw [hn, splitEdge_layerOf_dummy g j k, Option.some_inj] at h
      rw [← h]
      refine ⟨hk, ?_⟩
      rw [hn, hgetk]
      exact List.mem_append_right _ (List.mem_singleton.mpr rfl)
    · have hlt : n < g.layerOf.length + 1 := by
        have := layerOfD_lt_length h
        rw [splitEdge_layerOf_length] at this
        exact this
      have hn' : n < g.layerOf.length := by omega
      have hold : layerOfD g n = some idx := by
        rw [layerOfD, show (splitEdge g j k).layerOf = g.layerOf ++ [some k] from rfl,
          listGetD_append_left _ _ _ _ hn'] at h
        exact h
      obtain ⟨hidx, hmem⟩ := hW3 n idx hold
      refine ⟨hidx, ?_⟩
      by_cases hik : idx = k
      · rw [hik, hgetk]
        rw [hik] at hmem
        exact List.mem_append_left _ hmem
      · rw [hgetne idx hik]
        exact hmem

theorem sEdgeAt_mem {g : SGraph} {j : Nat} (hj : j < g.edges.length) :
    sEdgeAt g j ∈ g.edges := by
  simp only [sEdgeAt, List.getD, List.get?_eq_getElem?, List.getElem?_eq_getElem hj, Option.getD_some]
  exact List.getElem_mem _

theorem mem_edges_index {g : SGraph} {e : SEdge} (h : e ∈ g.edges) :
    ∃ j, j < g.edges.length ∧ sEdgeAt g j = e := by
  obtain ⟨j, hj, hval⟩ := List.mem_iff_getElem.mp h
  refine ⟨j, hj, ?_⟩
  simp only [sEdgeAt, List.getD, List.get?_eq_getElem?, List.getElem?_eq_getElem hj, Option.getD_some]
  exact hval

/-- Bundle of properties preserved by each splitter step relative to a
previous state `g`: well-formedness, proper forward layering, spans already
fixed below layer `i`, extension of the layer map, monotone node/edge
counts, stable sources of existing edges, and fresh sources of appended
edges. -/
structure StepOut (g g' : SGraph) (L i : Nat) : Prop where
  wf : WF g' L
  ok : OkEdges g' L
  sp : Spans1Below g' i
  ext : ∀ m v, layerOfD g m = some v → layerOfD g' m = some v
  lenL : g.layerOf.length ≤ g'.layerOf.length
  lenE : g.edges.length ≤ g'.edges.length
  srcPres : ∀ j, j < g.edges.length → (sEdgeAt g' j).src = (sEdgeAt g j).src
  newSrc : ∀ j, g.edges.length ≤ j → j < g'.edges.length →
    g.layerOf.length ≤ (sEdgeAt g' j).src
  layersPres : ∀ idx, idx ≠ i + 1 → g'.layers.getD idx [] = g.layers.getD idx []

theorem StepOut.rfl {g : SGraph} {L i : Nat} (hwf : WF g L) (hok : OkEdges g L)
    (hsp : Spans1Below g i) : StepOut g g L i :=
  ⟨hwf, hok, hsp, fun _ _ h => h, le_refl _, le_refl _, fun _ _ => Eq.refl _,
   fun j h1 h2 => absurd h2 (by omega), fun _ _ => Eq.refl _⟩

theorem StepOut.trans {g1 g2 g3 : SGraph} {L i : Nat}
    (a : StepOut g1 g2 L i) (b : StepOut g2 g3 L i) : StepOut g1 g3 L i := by
  refine ⟨b.wf, b.ok, b.sp, fun m v h => b.ext m v (a.ext m v h),
    le_trans a.lenL b.lenL, le_trans a.lenE b.lenE, ?_, ?_, ?_⟩
  · intro j hj
    rw [b.srcPres j (lt_of_lt_of_le hj a.lenE)]
    exact a.srcPres j hj
  · intro j h1 h2
    by_cases hj : j < g2.edges.length
    · rw [b.srcPres j hj]
      exact a.newSrc j h1 hj
    · exact le_trans a.lenL (b.newSrc j (by omega) h2)
  · intro idx hidx
    rw [b.layersPres idx hidx]
    exact a.layersPres idx hidx

/-- All outgoing edges of node `n` already end in the very next layer. -/
def NodeDone (g : SGraph) (i n : Nat) : Prop :=
  ∀ e ∈ g.edges, e.src = n → layerOfD g e.dst = some (i + 1)

theorem splitStep_spec {g : SGraph} {L i : Nat} (j : Nat)
    (hwf : WF g L) (hok : OkEdges g L) (hsp : Spans1Below g i) (hiL : i + 1 < L)
    (hj : j < g.edges.length)
    (hsrci : layerOfD g (sEdgeAt g j).src = some i) :
    StepOut g (splitStep g i j) L i ∧
      layerOfD (splitStep g i j) ((sEdgeAt (splitStep g i j) j).dst) = some (i + 1) ∧
      (sEdgeAt (splitStep g i j) j).src = (sEdgeAt g j).src ∧
      ∀ j', j' < g.edges.length → j' ≠ j →
        sEdgeAt (splitStep g i j) j' = sEdgeAt g j' := by
  obtain ⟨s, t, hs, ht, hst, htL⟩ := hok _ (sEdgeAt_mem hj)
  have hsi : s = i := by
    rw [hsrci] at hs
    exact (Option.some_inj.mp hs).symm
  rw [hsi] at hst
  have hred : splitStep g i j =
      if t ≠ i ∧ t ≠ i + 1 then splitEdge g j (i + 1) else g := by
    unfold splitStep
    rw [ht]
  by_cases hcond : t ≠ i ∧ t ≠ i + 1
  · rw [hred, if_pos hcond]
    have htgt : i + 1 < t := by omega
    have hedges : (splitEdge g j (i + 1)).edges =
        g.edges.set j ⟨(sEdgeAt g j).src, g.layerOf.length⟩ ++
        [⟨g.layerOf.length, (sEdgeAt g j).dst⟩] := rfl
    have hexts := fun {m v : Nat} => splitEdge_layerOf_ext (g := g) j (i + 1) (m := m) (v := v)
    refine ⟨⟨splitEdge_WF j hwf (by omega), ?_, ?_, fun m v h => hexts h, ?_, ?_, ?_, ?_,
      fun idx hidx => listGetD_set_ne _ _ _ _ _ (fun h => hidx h.symm)⟩, ?_, ?_, ?_⟩
    · -- OkEdges
      intro e he
      rw [hedges] at he
      rcases List.mem_append.mp he with he' | he'
      · rcases List.mem_or_eq_of_mem_set he' with he'' | he''
        · obtain ⟨s', t', hs', ht', hst', ht'L⟩ := hok e he''
          exact ⟨s', t', hexts hs', hexts ht', hst', ht'L⟩
        · rw [he'']
          exact ⟨i, i + 1, hexts hsrci, splitEdge_layerOf_dummy g j (i + 1),
            by omega, hiL⟩
      · rw [List.mem_singleton.mp he']
        exact ⟨i + 1, t, splitEdge_layerOf_dummy g j (i + 1), hexts ht, htgt, htL⟩
    · -- Spans1Below
      intro e he s' hs' hlt
      rw [hedges] at he
      rcases List.mem_append.mp he with he' | he'
      · rcases List.mem_or_eq_of_mem_set he' with he'' | he''
        · obtain ⟨s0, t0, hs0, ht0, _, _⟩ := hok e he''
          have : s0 = s' := by
            have := hexts hs0
            rw [hs'] at this
            exact (Option.some_inj.mp this).symm
          subst this
          exact hexts (hsp e he'' s0 hs0 hlt)
        · exfalso
          rw [he''] at hs'
          have := hexts hsrci
          rw [hs'] at this
          have : i = s' := (Option.some_inj.mp this).symm
          omega
      · exfalso
        rw [List.mem_singleton.mp he'] at hs'
        have := splitEdge_layerOf_dummy g j (i + 1)
        rw [hs'] at this
        have : i + 1 = s' := (Option.some_inj.mp this).symm
        omega
    · rw [splitEdge_layerOf_length]
      omega
    · rw [splitEdge_edges_length]
      omega
    · -- srcPres
      intro j' hj'
      by_cases hjj : j' = j
      · rw [hjj, splitEdge_edge_self (i + 1) hj]
      · rw [splitEdge_edge_other j (i + 1) hjj hj']
    · -- newSrc
      intro j' h1 h2
      rw [splitEdge_edges_length] at h2
      have : j' = g.edges.length := by omega
      rw [this, splitEdge_edge_new]
    · rw [splitEdge_edge_self (i + 1) hj]
      exact splitEdge_layerOf_dummy g j (i + 1)
    · rw [splitEdge_edge_self (i + 1) hj]
    · intro j' hj' hne
      exact splitEdge_edge_other j (i + 1) hne hj'
  · rw [hred, if_neg hcond]
    have ht1 : t = i + 1 := by omega
    refine ⟨StepOut.rfl hwf hok hsp, ?_, Eq.refl _, fun j' hj' hne => Eq.refl _⟩
    rw [ht, ht1]

theorem splitFold_spec {g : SGraph} {L i n : Nat} (cl : List Nat)
    (hwf : WF g L) (hok : OkEdges g L) (hsp : Spans1Below g i) (hiL : i + 1 < L)
    (hnl : layerOfD g n = some i)
    (hcl : ∀ j ∈ cl, j < g.edges.length ∧ (sEdgeAt g j).src = n)
    (hnodup : cl.Nodup) :
    StepOut g (cl.foldl (fun g j => splitStep g i j) g) L i ∧
      (∀ j, j < g.edges.length → j ∉ cl →
        sEdgeAt (cl.foldl (fun g j => splitStep g i j) g) j = sEdgeAt g j) ∧
      ∀ j ∈ cl,
        layerOfD (cl.foldl (fun g j => splitStep g i j) g)
          ((sEdgeAt (cl.foldl (fun g j => splitStep g i j) g) j).dst) = some (i + 1) := by
  induction cl generalizing g with
  | nil =>
    exact ⟨StepOut.rfl hwf hok hsp, fun j hj _ => Eq.refl _, fun j hj => absurd hj (by simp)⟩
  | cons j cl' ih =>
    obtain ⟨hjlen, hjsrc⟩ := hcl j (List.mem_cons_self _ _)
    have hsrci : layerOfD g (sEdgeAt g j).src = some i := by
      rw [hjsrc]
      exact hnl
    obtain ⟨so1, hdone1, hsrcp1, hother1⟩ :=
      splitStep_spec j hwf hok hsp hiL hjlen hsrci
    have hjnotin : j ∉ cl' := (List.nodup_cons.mp hnodup).1
    have hcl1 : ∀ j' ∈ cl', j' < (splitStep g i j).edges.length ∧
        (sEdgeAt (splitStep g i j) j').src = n := by
      intro j' hj'
      obtain ⟨hl, hs⟩ := hcl j' (List.mem_cons_of_mem _ hj')
      have hne : j' ≠ j := fun h => hjnotin (h ▸ hj')
      exact ⟨lt_of_lt_of_le hl so1.lenE, by rw [hother1 j' hl hne]; exact hs⟩
    obtain ⟨so2, hun2, hdone2⟩ := ih so1.wf so1.ok so1.sp
      (so1.ext n i hnl) hcl1 (List.nodup_cons.mp hnodup).2
    simp only [List.foldl_cons]
    refine ⟨so1.trans so2, ?_, ?_⟩
    · intro j'' hj'' hnotin
      have hne : j'' ≠ j := fun h => hnotin (h ▸ List.mem_cons_self _ _)
      have hnotin' : j'' ∉ cl' := fun h => hnotin (List.mem_cons_of_mem _ h)
      rw [hun2 j'' (lt_of_lt_of_le hj'' so1.lenE) hnotin']
      exact hother1 j'' hj'' hne
    · intro j'' hj''
      rcases List.mem_cons.mp hj'' with rfl | hj''
      · rw [hun2 j'' (lt_of_lt_of_le hjlen so1.lenE) hjnotin]
        exact so2.ext _ _ hdone1
      · exact hdone2 j'' hj''

theorem processNodeEdges_spec {g : SGraph} {L i n : Nat}
    (hwf : WF g L) (hok : OkEdges g L) (hsp : Spans1Below g i) (hiL : i + 1 < L)
    (hnl : layerOfD g n = some i) :
    StepOut g (processNodeEdges g i n) L i ∧
      NodeDone (processNodeEdges g i n) i n ∧
      ∀ m, m < g.layerOf.length → NodeDone g i m →
        NodeDone (processNodeEdges g i n) i m := by
  have hcl : ∀ j ∈ (List.range g.edges.length).filter (fun j => (sEdgeAt g j).src = n),
      j < g.edges.length ∧ (sEdgeAt g j).src = n := by
    intro j hj
    have h1 := List.mem_range.mp (List.mem_of_mem_filter hj)
    have h2 := List.of_mem_filter hj
    simp only [decide_eq_true_eq] at h2
    exact ⟨h1, h2⟩
  have hnodup : ((List.range g.edges.length).filter
      (fun j => (sEdgeAt g j).src = n)).Nodup :=
    (List.nodup_range _).filter _
  obtain ⟨so, hun, hdone⟩ := splitFold_spec _ hwf hok hsp hiL hnl hcl hnodup
  have hproc : processNodeEdges g i n =
      ((List.range g.edges.length).filter (fun j => (sEdgeAt g j).src = n)).foldl
        (fun g j => splitStep g i j) g := rfl
  rw [hproc]
  refine ⟨so, ?_, ?_⟩
  · intro e he hesrc
    obtain ⟨j, hjlen, hval⟩ := mem_edges_index he
    by_cases hjg : j < g.edges.length
    · by_cases hjcl : j ∈ (List.range g.edges.length).filter
          (fun j => (sEdgeAt g j).src = n)
      · rw [← hval]
        exact hdone j hjcl
      · exfalso
        have := hun j hjg hjcl
        rw [this] at hval
        apply hjcl
        rw [List.mem_filter]
        exact ⟨List.mem_range.mpr hjg, by rw [hval, hesrc]; exact decide_eq_true rfl⟩
    · exfalso
      have hge := so.newSrc j (by omega) hjlen
      rw [hval, hesrc] at hge
      exact absurd (layerOfD_lt_length hnl) (by omega)
  · intro m hm hdm e he hesrc
    obtain ⟨j, hjlen, hval⟩ := mem_edges_index he
    by_cases hjg : j < g.edges.length
    · by_cases hjcl : j ∈ (List.range g.edges.length).filter
          (fun j => (sEdgeAt g j).src = n)
      · rw [← hval]
        exact hdone j hjcl
      · have hvv := hun j hjg hjcl
        rw [hvv] at hval
        have hmem : e ∈ g.edges := by
          rw [← hval]
          exact sEdgeAt_mem hjg
        exact so.ext _ _ (hdm e hmem hesrc)
    · exfalso
      have hge := so.newSrc j (by omega) hjlen
      rw [hval, hesrc] at hge
      omega

theorem nodesFold_spec {g : SGraph} {L i : Nat} (ns : List Nat)
    (hwf : WF g L) (hok : OkEdges g L) (hsp : Spans1Below g i) (hiL : i + 1 < L)
    (hns : ∀ n ∈ ns, layerOfD g n = some i) :
    StepOut g (ns.foldl (fun g n => processNodeEdges g i n) g) L i ∧
      (∀ n ∈ ns, NodeDone (ns.foldl (fun g n => processNodeEdges g i n) g) i n) ∧
      ∀ m, m < g.layerOf.length → NodeDone g i m →
        NodeDone (ns.foldl (fun g n => processNodeEdges g i n) g) i m := by
  induction ns generalizing g with
  | nil =>
    exact ⟨StepOut.rfl hwf hok hsp, fun n hn => absurd hn (by simp), fun m _ h => h⟩
  | cons n rest ih =>
    have hnl := hns n (List.mem_cons_self _ _)
    obtain ⟨so1, hnd1, hpres1⟩ := processNodeEdges_spec hwf hok hsp hiL hnl
    obtain ⟨so2, hnd2, hpres2⟩ := ih so1.wf so1.ok so1.sp
      (fun n' hn' => so1.ext n' i (hns n' (List.mem_cons_of_mem _ hn')))
    simp only [List.foldl_cons]
    refine ⟨so1.trans so2, ?_, ?_⟩
    · intro n' hn'
      rcases List.mem_cons.mp hn' with rfl | hn'
      · exact hpres2 n' (lt_of_lt_of_le (layerOfD_lt_length hnl) so1.lenL) hnd1
      · exact hnd2 n' hn'
    · intro m hm hdm
      exact hpres2 m (lt_of_lt_of_le hm so1.lenL) (hpres1 m hm hdm)

theorem processLayer_spec {g : SGraph} {L i : Nat}
    (hwf : WF g L) (hok : OkEdges g L) (hsp : Spans1Below g i) (hiL : i + 1 < L) :
    WF (processLayer g i) L ∧ OkEdges (processLayer g i) L ∧
      Spans1Below (processLayer g i) (i + 1) := by
  have hns : ∀ n ∈ g.layers.getD i [], layerOfD g n = some i :=
    hwf.2.1 i (by omega)
  obtain ⟨so, hnd, _⟩ := nodesFold_spec (g.layers.getD i []) hwf hok hsp hiL hns
  have hlp : processLayer g i =
      (g.layers.getD i []).foldl (fun g n => processNodeEdges g i n) g := rfl
  rw [hlp]
  refine ⟨so.wf, so.ok, ?_⟩
  intro e he s hs hlt
  by_cases hsi : s < i
  · exact so.sp e he s hs hsi
  · have hsieq : s = i := by omega
    subst hsieq
    have hmem : e.src ∈ (((g.layers.getD s [])).foldl
        (fun g n => processNodeEdges g s n) g).layers.getD s [] :=
      (so.wf.2.2 e.src s hs).2
    rw [so.layersPres s (by omega)] at hmem
    exact hnd e.src hmem e he rfl

theorem processPairs_spec {L : Nat} (k : Nat) :
    ∀ (i : Nat) (g : SGraph), WF g L → OkEdges g L → Spans1Below g i →
      i + k + 1 ≤ L →
      WF (processPairs g (List.range' i k)) L ∧
        OkEdges (processPairs g (List.range' i k)) L ∧
        Spans1Below (processPairs g (List.range' i k)) (i + k) := by
  induction k with
  | zero =>
    intro i g hwf hok hsp _
    exact ⟨hwf, hok, hsp⟩
  | succ k ih =>
    intro i g hwf hok hsp hik
    have hiL : i + 1 < L := by omega
    obtain ⟨hwf1, hok1, hsp1⟩ := processLayer_spec hwf hok hsp hiL
    have hr : List.range' i (k + 1) = i :: List.range' (i + 1) k :=
      List.range'_succ i k 1
    rw [hr]
    have := ih (i + 1) (processLayer g i) hwf1 hok1 hsp1 (by omega)
    simpa [processPairs, Nat.add_assoc, Nat.add_comm 1 k] using this

/-- C6: after the long-edge splitter runs on a properly layered graph
(consistent layer lists and back-pointers, every edge pointing strictly
forward between existing layers), every edge of the result connects nodes
in adjacent layers: its source sits in some layer `s` and its target in
layer `s + 1`, so the absolute difference of the two layer indices is 1. -/
theorem C6_long_edge_splitter {g : SGraph} {L : Nat}
    (hwf : WF g L) (hok : OkEdges g L) :
    ∀ e ∈ (process g).edges, ∃ s t,
      layerOfD (process g) e.src = some s ∧
        layerOfD (process g) e.dst = some t ∧ t = s + 1 := by
  by_cases hle : g.layers.length ≤ 2
  · simp only [process, if_pos hle]
    intro e he
    obtain ⟨s, t, hs, ht, hst, htL⟩ := hok e he
    have hL : L ≤ 2 := hwf.1 ▸ hle
    exact ⟨s, t, hs, ht, by omega⟩
  · simp only [process, if_neg hle]
    have hL3 : 3 ≤ L := by rw [← hwf.1]; omega
    have hsp0 : Spans1Below g 0 := fun e _ s _ hs0 => absurd hs0 (by omega)
    have hrange : List.range (g.layers.length - 1) = List.range' 0 (L - 1) := by
      rw [hwf.1, List.range_eq_range']
    rw [hrange]
    obtain ⟨hwf', hok', hsp'⟩ :=
      processPairs_spec (L - 1) 0 g hwf hok hsp0 (by omega)
    intro e he
    obtain ⟨s, t, hs, ht, hst, htL⟩ := hok' e he
    have hdst := hsp' e he s hs (by omega)
    exact ⟨s, s + 1, hs, hdst, rfl⟩

/-- A three-layer chain with one long edge `0 → 2` spanning two gaps. -/
def cSG : SGraph :=
  ⟨[[0], [1], [2]], [some 0, some 1, some 2], [⟨0, 2⟩]⟩

theorem cSG_wf : WF cSG 3 := by
  refine ⟨rfl, ?_, ?_⟩
  · intro idx hidx
    interval_cases idx <;> decide
  · intro n idx h
    have hn : n < 3 := layerOfD_lt_length h
    interval_cases n <;>
      (injection h with h2; subst h2; decide)

theorem cSG_ok : OkEdges cSG 3 := by
  intro e he
  have he' : e = (⟨0, 2⟩ : SEdge) := by
    simpa [cSG] using he
  subst he'
  exact ⟨0, 2, rfl, rfl, by omega, by omega⟩

theorem C6_long_edge_splitter_witness :
    (process cSG).edges = [⟨0, 3⟩, ⟨3, 2⟩] ∧
      (∀ e ∈ (process cSG).edges, ∃ s t,
        layerOfD (process cSG) e.src = some s ∧
          layerOfD (process cSG) e.dst = some t ∧ t = s + 1) :=
  ⟨by decide, C6_long_edge_splitter cSG_wf cSG_ok⟩

end LongEdgeSplitter

/-! ## Long-edge joiner (`edgeManipulators/longEdgeJoiner.py`)

Nodes, ports and edges are held in id-indexed tables.  `joinAt` only
touches port edge-lists and edge records (endpoints, bend points, labels,
junction points), so that state is grouped in `EdgeState`; geometry points
are opaque `Nat` ids (the claim is about layers and back-pointers, which
geometry never influences).  Python `list.remove` is modelled by
`List.erase` (on a consistent graph the element is always present) and
`list.insert` by `pyInsert`, which clamps the index like Python does.  The
per-layer `del layer[i]` loop over the reversed collected indexes is kept
literally (`delReversed`). -/

namespace LongEdgeJoiner

inductive NodeType
  | normal
  | longEdge
  deriving DecidableEq, Repr

/-- An edge record: endpoint port ids (`None` after `setSource(None)` or
`setTarget(None)`), bend points, labels and the optional junction-point
list (`LEdge.__init__` starts it at `None`). -/
structure JEdge where
  src : Option Nat
  dst : Option Nat
  bendPoints : List Nat
  labels : List Nat
  junctionPoints : Option (List Nat)
  deriving DecidableEq, Repr

def defaultJEdge : JEdge := ⟨none, none, [], [], none⟩

/-- A port: its incoming/outgoing edge-id lists and the anchor returned by
`geometry.getAbsoluteAnchor()`. -/
structure JPort where
  incomingEdges : List Nat
  outgoingEdges : List Nat
  anchor : Nat
  deriving DecidableEq, Repr

def defaultJPort : JPort := ⟨[], [], 0⟩

/-- A node: its type, the `LNode.layer` back-pointer (a layer index here),
and its west/east port-id lists. -/
structure JNode where
  type : NodeType
  layer : Option Nat
  west : List Nat
  east : List Nat
  deriving DecidableEq, Repr

def defaultJNode : JNode := ⟨NodeType.normal, none, [], []⟩

/-- The state `joinAt` reads and writes: the port table, the edge table
and `layeredGraph.edges`. -/
structure EdgeState where
  ports : List JPort
  edgeData : List JEdge
  edges : List Nat
  deriving DecidableEq, Repr

structure JGraph where
  layers : List (List Nat)
  nodes : List JNode
  est : EdgeState
  unnecessaryBendpoints : Bool
  deriving DecidableEq, Repr

def portAt (s : EdgeState) (p : Nat) : JPort := s.ports.getD p defaultJPort

def jEdgeAt (s : EdgeState) (e : Nat) : JEdge := s.edgeData.getD e defaultJEdge

def setPort (s : EdgeState) (p : Nat) (v : JPort) : EdgeState :=
  { s with ports := s.ports.set p v }

def setJEdge (s : EdgeState) (e : Nat) (v : JEdge) : EdgeState :=
  { s with edgeData := s.edgeData.set e v }

/-- Python `list.insert(i, x)`: clamps the index into range. -/
def pyInsert (l : List Nat) (i : Nat) (x : Nat) : List Nat :=
  l.take i ++ [x] ++ l.drop i

/-- Method `LEdge.setTargetAndInsertAtIndex` for edge id `e`: detach from
the current target port, set the new target and insert the edge at the
given index of the new target incoming list. -/
def setTargetAndInsertAtIndex (s : EdgeState) (e : Nat) (tgt : Option Nat)
    (index : Nat) : EdgeState :=
  let s := match (jEdgeAt s e).dst with
    | some p =>
        setPort s p
          { portAt s p with incomingEdges := (portAt s p).incomingEdges.erase e }
    | none => s
  let s := setJEdge s e { jEdgeAt s e with dst := tgt }
  match tgt with
  | some p =>
      setPort s p
        { portAt s p with
            incomingEdges := pyInsert (portAt s p).incomingEdges index e }
  | none => s

/-- Method `LEdge.setSource` for edge id `e`. -/
def setSource (s : EdgeState) (e : Nat) (src : Option Nat) : EdgeState :=
  let s := match (jEdgeAt s e).src with
    | some p =>
        setPort s p
          { portAt s p with outgoingEdges := (portAt s p).outgoingEdges.erase e }
    | none => s
  let s := setJEdge s e { jEdgeAt s e with src := src }
  match src with
  | some p =>
      setPort s p
        { portAt s p with outgoingEdges := (portAt s p).outgoingEdges ++ [e] }
  | none => s

/-- Method `LEdge.setTarget` for edge id `e`. -/
def setTarget (s : EdgeState) (e : Nat) (tgt : Option Nat) : EdgeState :=
  let s := match (jEdgeAt s e).dst with
    | some p =>
        setPort s p
          { portAt s p with incomingEdges := (portAt s p).incomingEdges.erase e }
    | none => s
  let s := setJEdge s e { jEdgeAt s e with dst := tgt }
  match tgt with
  | some p =>
      setPort s p
        { portAt s p with incomingEdges := (portAt s p).incomingEdges ++ [e] }
  | none => s

/-- The while loop of `joinAt` over `edgeCount`.  Each pass takes the head
of the live `west[0].incomingEdges` and `east[0].outgoingEdges` lists
(retargeting the surviving edge and detaching the dropped edge pop those
heads), rewires the surviving edge to the dropped target at the dropped
index, removes the dropped edge, and merges bend points, labels and
junction points.  `survivingJunctionPoints.add(...)` is Python-list
`.add`, an `AttributeError` as soon as the dropped edge has a non-empty
junction-point list. -/
def joinLoop (addUnnecessaryBendpoints : Bool) (w0 e0 bp : Nat) :
    Nat → EdgeState → Except String EdgeState
  | 0, s => .ok s
  | count + 1, s =>
    match (portAt s w0).incomingEdges.head? with
    | none => .error "IndexError: list index out of range"
    | some survivingEdge =>
      match (portAt s e0).outgoingEdges.head? with
      | none => .error "IndexError: list index out of range"
      | some droppedEdge =>
        match (jEdgeAt s droppedEdge).dst with
        | none =>
            .error "AttributeError: NoneType object has no attribute incomingEdges"
        | some dstPort =>
          match (portAt s dstPort).incomingEdges.findIdx? (fun x => x = droppedEdge) with
          | none => .error "ValueError: x not in list"
          | some droppedEdgeListIndex =>
            let s := setTargetAndInsertAtIndex s survivingEdge (some dstPort)
              droppedEdgeListIndex
            let s := setSource s droppedEdge none
            let s := setTarget s droppedEdge none
            let s : EdgeState := { s with edges := s.edges.erase droppedEdge }
            let survBp := (jEdgeAt s survivingEdge).bendPoints
            let survBp := if addUnnecessaryBendpoints then survBp ++ [bp] else survBp
            let survBp := survBp ++ (jEdgeAt s droppedEdge).bendPoints
            let s := setJEdge s survivingEdge
              { jEdgeAt s survivingEdge with bendPoints := survBp }
            let s := setJEdge s survivingEdge
              { jEdgeAt s survivingEdge with
                  labels := (jEdgeAt s survivingEdge).labels ++
                    (jEdgeAt s droppedEdge).labels }
            match (jEdgeAt s droppedEdge).junctionPoints with
            | none => joinLoop addUnnecessaryBendpoints w0 e0 bp count s
            | some [] =>
                let s := if (jEdgeAt s survivingEdge).junctionPoints = none then
                    setJEdge s survivingEdge
                      { jEdgeAt s survivingEdge with junctionPoints := some [] }
                  else s
                joinLoop addUnnecessaryBendpoints w0 e0 bp count s
            | some (_ :: _) =>
                .error "AttributeError: list object has no attribute add"

/-- Static method `LongEdgeJoiner.joinAt`: joins the edge chains through
the dummy; it reads the node table for the west/east ports and then works
on the edge state only. -/
def joinAt (g : JGraph) (longEdgeDummy : Nat) : Except String JGraph :=
  let nd := g.nodes.getD longEdgeDummy defaultJNode
  match nd.west.head? with
  | none => .error "IndexError: list index out of range"
  | some w0 =>
    match nd.east.head? with
    | none => .error "IndexError: list index out of range"
    | some e0 =>
      let edgeCount := (portAt g.est w0).incomingEdges.length
      let bp := (portAt g.est w0).anchor
      match joinLoop g.unnecessaryBendpoints w0 e0 bp edgeCount g.est with
      | .ok est => .ok { g with est := est }
      | .error msg => .error msg

def typeOf (g : JGraph) (n : Nat) : NodeType := (g.nodes.getD n defaultJNode).type

/-- The `enumerate(layer)` pass of `process`: call `joinAt` on every
LONG_EDGE dummy and collect its index into `toRemoveIndexes`. -/
def scanNodes (layer : List Nat) :
    List Nat → JGraph → List Nat → Except String (JGraph × List Nat)
  | [], g, acc => .ok (g, acc)
  | i :: rest, g, acc =>
    if typeOf g (layer.getD i 0) = NodeType.longEdge then
      match joinAt g (layer.getD i 0) with
      | .ok g2 => scanNodes layer rest g2 (acc ++ [i])
      | .error m => .error m
    else scanNodes layer rest g acc

/-- The `del layer[i]` loop over the reversed collected indexes. -/
def delReversed (layer : List Nat) (idxs : List Nat) : List Nat :=
  idxs.reverse.foldl (fun l i => l.eraseIdx i) layer

/-- One iteration of the outer layer loop of `LongEdgeJoiner.process`. -/
def processLayerJ (g : JGraph) (li : Nat) : Except String JGraph :=
  let layer := g.layers.getD li []
  match scanNodes layer (List.range layer.length) g [] with
  | .error m => .error m
  | .ok (g2, toRemoveIndexes) =>
      .ok { g2 with layers := g2.layers.set li (delReversed layer toRemoveIndexes) }

def processLayers : List Nat → JGraph → Except String JGraph
  | [], g => .ok g
  | li :: rest, g =>
    match processLayerJ g li with
    | .ok g2 => processLayers rest g2
    | .error m => .error m

/-- Method `LongEdgeJoiner.process`: walk the layers in order (the outer
list of layers is never modified, only the per-layer node sequences). -/
def process (g : JGraph) : Except String JGraph :=
  processLayers (List.range g.layers.length) g

theorem joinAt_ok_frame {g g' : JGraph} {n : Nat} (h : joinAt g n = .ok g') :
    g'.layers = g.layers ∧ g'.nodes = g.nodes := by
  unfold joinAt at h
  dsimp only at h
  split at h
  · simp at h
  · split at h
    · simp at h
    · split at h
      · injection h with h
        subst h
        exact ⟨rfl, rfl⟩
      · simp at h

theorem scanNodes_spec (layer : List Nat) :
    ∀ (idxs : List Nat) (g : JGraph) (acc : List Nat) (pr : JGraph × List Nat),
      scanNodes layer idxs g acc = .ok pr →
      pr.1.layers = g.layers ∧ pr.1.nodes = g.nodes ∧
      pr.2 = acc ++ idxs.filter
        (fun i => decide (typeOf g (layer.getD i 0) = NodeType.longEdge)) := by
  intro idxs
  induction idxs with
  | nil =>
    intro g acc pr h
    simp only [scanNodes] at h
    injection h with h
    subst h
    simp
  | cons i rest ih =>
    intro g acc pr h
    simp only [scanNodes] at h
    by_cases hty : typeOf g (layer.getD i 0) = NodeType.longEdge
    · rw [if_pos hty] at h
      cases hje : joinAt g (layer.getD i 0) with
      | error m =>
        rw [hje] at h
        simp at h
      | ok g2 =>
        rw [hje] at h
        dsimp only at h
        obtain ⟨h1, h2, h3⟩ := ih g2 (acc ++ [i]) pr h
        have hnodes : g2.nodes = g.nodes := (joinAt_ok_frame hje).2
        have hlayers : g2.layers = g.layers := (joinAt_ok_frame hje).1
        refine ⟨h1.trans hlayers, h2.trans hnodes, ?_⟩
        rw [h3]
        have hpt : ∀ j, typeOf g2 j = typeOf g j := fun j => by
          rw [typeOf, typeOf, hnodes]
        simp only [hpt]
        rw [List.filter_cons, if_pos (decide_eq_true hty)]
        simp
    · rw [if_neg hty] at h
      obtain ⟨h1, h2, h3⟩ := ih g acc pr h
      refine ⟨h1, h2, ?_⟩
      rw [h3, List.filter_cons, if_neg (by simpa using hty)]

theorem processLayerJ_spec {g g' : JGraph} {li : Nat}
    (h : processLayerJ g li = .ok g') :
    g'.nodes = g.nodes ∧
    g'.layers = g.layers.set li
      (delReversed (g.layers.getD li [])
        ((List.range (g.layers.getD li []).length).filter
          (fun i =>
            decide (typeOf g ((g.layers.getD li []).getD i 0) =
              NodeType.longEdge)))) := by
  unfold processLayerJ at h
  dsimp only at h
  cases hs : scanNodes (g.layers.getD li [])
      (List.range (g.layers.getD li []).length) g [] with
  | error m =>
    rw [hs] at h
    simp at h
  | ok pr =>
    rw [hs] at h
    dsimp only at h
    obtain ⟨h1, h2, h3⟩ := scanNodes_spec _ _ _ _ _ hs
    injection h with h
    subst h
    refine ⟨h2, ?_⟩
    dsimp only
    rw [h1, h3]
    simp

theorem eraseFold_append (x : Nat) :
    ∀ (idxs : List Nat) (l : List Nat), (∀ i ∈ idxs, i < l.length) →
      idxs.Pairwise (fun a b => b < a) →
      idxs.foldl (fun l i => l.eraseIdx i) (l ++ [x]) =
        idxs.foldl (fun l i => l.eraseIdx i) l ++ [x] := by
  intro idxs
  induction idxs with
  | nil =>
    intro l _ _
    rfl
  | cons i rest ih =>
    intro l hlt hpw
    have hi : i < l.length := hlt i (List.mem_cons_self i rest)
    simp only [List.foldl_cons]
    rw [List.eraseIdx_append_of_lt_length hi]
    apply ih
    · intro j hj
      have hji : j < i := (List.pairwise_cons.mp hpw).1 j hj
      rw [List.length_eraseIdx]
      simp only [hi, if_pos]
      omega
    · exact (List.pairwise_cons.mp hpw).2

theorem delReversed_filter (Q : Nat → Bool) :
    ∀ l : List Nat,
      delReversed l ((List.range l.length).filter (fun i => Q (l.getD i 0))) =
        l.filter (fun x => !Q x) := by
  intro l
  induction l using List.reverseRecOn with
  | nil => rfl
  | append_singleton l x ih =>
    have hlen : (l ++ [x]).length = l.length + 1 := by simp
    rw [hlen, List.range_succ l.length, List.filter_append]
    have h1 : (List.range l.length).filter (fun i => Q ((l ++ [x]).getD i 0)) =
        (List.range l.length).filter (fun i => Q (l.getD i 0)) := by
      apply List.filter_congr
      intro i hi
      rw [LongEdgeSplitter.listGetD_append_left _ _ _ _ (List.mem_range.mp hi)]
    have h2 : [l.length].filter (fun i => Q ((l ++ [x]).getD i 0)) =
        if Q x then [l.length] else [] := by
      rw [List.filter_singleton, LongEdgeSplitter.listGetD_append_self]
      cases Q x <;> rfl
    rw [h1, h2, List.filter_append]
    set A := (List.range l.length).filter (fun i => Q (l.getD i 0)) with hA
    have hbound : ∀ i ∈ A.reverse, i < l.length := by
      intro i hi
      exact List.mem_range.mp
        (List.mem_of_mem_filter (List.mem_reverse.mp hi))
    have hdesc : A.reverse.Pairwise (fun a b => b < a) :=
      List.pairwise_reverse.mpr ((List.pairwise_lt_range l.length).filter _)
    rw [delReversed] at ih
    by_cases hq : Q x
    · rw [if_pos hq]
      rw [delReversed, List.reverse_append, List.reverse_singleton,
        List.singleton_append, List.foldl_cons]
      have herase : (l ++ [x]).eraseIdx l.length = l := by
        rw [List.eraseIdx_append_of_length_le (le_refl _)]
        simp
      rw [herase, ih]
      have hq2 : (!Q x) = false := by simp [hq]
      simp [hq2]
    · rw [if_neg hq, List.append_nil, delReversed]
      rw [eraseFold_append x A.reverse l hbound hdesc]
      rw [ih]
      have hq2 : Q x = false := by simpa using hq
      simp [hq2]

theorem processLayers_spec :
    ∀ (lis : List Nat) (g g' : JGraph), lis.Nodup →
      processLayers lis g = .ok g' →
      g'.nodes = g.nodes ∧ g'.layers.length = g.layers.length ∧
      (∀ li, li ∉ lis → g'.layers.getD li [] = g.layers.getD li []) ∧
      ∀ li ∈ lis, g'.layers.getD li [] =
        (g.layers.getD li []).filter
          (fun n => !decide (typeOf g n = NodeType.longEdge)) := by
  intro lis
  induction lis with
  | nil =>
    intro g g' _ h
    simp only [processLayers] at h
    injection h with h
    subst h
    exact ⟨rfl, rfl, fun li _ => rfl, fun li hli => absurd hli (by simp)⟩
  | cons li rest ih =>
    intro g g' hnd h
    simp only [processLayers] at h
    cases hp : processLayerJ g li with
    | error m =>
      rw [hp] at h
      simp at h
    | ok g1 =>
      rw [hp] at h
      dsimp only at h
      obtain ⟨hn1, hl1⟩ := processLayerJ_spec hp
      obtain ⟨hn2, hlen2, hun2, hfl2⟩ := ih g1 g' (List.nodup_cons.mp hnd).2 h
      have hlinotin : li ∉ rest := (List.nodup_cons.mp hnd).1
      have hg1len : g1.layers.length = g.layers.length := by
        rw [hl1]
        simp
      have hpt : ∀ j, typeOf g1 j = typeOf g j := fun j => by
        rw [typeOf, typeOf, hn1]
      have hset : g1.layers.getD li [] =
          (g.layers.getD li []).filter
            (fun n => !decide (typeOf g n = NodeType.longEdge)) := by
        rw [hl1]
        by_cases hli : li < g.layers.length
        · rw [LongEdgeSplitter.listGetD_set_self _ _ _ _ hli]
          exact delReversed_filter
            (fun n => decide (typeOf g n = NodeType.longEdge)) _
        · have hge : g.layers.length ≤ li := by omega
          rw [List.set_eq_of_length_le hge]
          have hnil : g.layers.getD li [] = [] := by
            simp [List.getD, List.getElem?_eq_none hge]
          rw [hnil]
          rfl
      have hunch : ∀ m, m ≠ li → g1.layers.getD m [] = g.layers.getD m [] := by
        intro m hm
        rw [hl1]
        exact LongEdgeSplitter.listGetD_set_ne _ _ _ _ _ (fun hh => hm hh.symm)
      refine ⟨hn2.trans hn1, hlen2.trans hg1len, ?_, ?_⟩
      · intro m hm
        have hm1 : m ∉ rest := fun hh => hm (List.mem_cons_of_mem _ hh)
        have hm2 : m ≠ li := fun hh => hm (hh ▸ List.mem_cons_self _ _)
        rw [hun2 m hm1, hunch m hm2]
      · intro m hm
        rcases List.mem_cons.mp hm with rfl | hm'
        · rw [hun2 m hlinotin, hset]
        · rw [hfl2 m hm', hunch m (fun hh => hlinotin (hh ▸ hm'))]
          simp only [hpt]

/-- C10: the long-edge joiner only deletes a LONG_EDGE dummy from the
per-layer node sequence.  If `process` completes, the node table — and
hence every `LNode.layer` back-pointer — is unchanged, no LONG_EDGE node
remains in any layer, and every removed dummy still carries its former
layer index in its `layer` field even though that layer no longer contains
it. -/
theorem C10_long_edge_joiner {g g' : JGraph}
    (hwf : ∀ li, li < g.layers.length → ∀ n ∈ g.layers.getD li [],
      (g.nodes.getD n defaultJNode).layer = some li)
    (h : process g = .ok g') :
    g'.nodes = g.nodes ∧
    (∀ li, ∀ n ∈ g'.layers.getD li [], typeOf g' n ≠ NodeType.longEdge) ∧
    ∀ li, li < g.layers.length → ∀ n ∈ g.layers.getD li [],
      typeOf g n = NodeType.longEdge →
        (g'.nodes.getD n defaultJNode).layer = some li ∧
          n ∉ g'.layers.getD li [] := by
  obtain ⟨hn, hlen, hun, hfl⟩ :=
    processLayers_spec _ g g' (List.nodup_range _) h
  have hpt : ∀ j, typeOf g' j = typeOf g j := fun j => by
    rw [typeOf, typeOf, hn]
  refine ⟨hn, ?_, ?_⟩
  · intro li n hnmem
    by_cases hli : li < g.layers.length
    · rw [hfl li (List.mem_range.mpr hli)] at hnmem
      have hb := List.of_mem_filter hnmem
      simp only [Bool.not_eq_true', decide_eq_false_iff_not] at hb
      rw [hpt n]
      exact hb
    · have hnil : g'.layers.getD li [] = [] := by
        have hge : g'.layers.length ≤ li := by omega
        simp [List.getD, List.getElem?_eq_none hge]
      rw [hnil] at hnmem
      simp at hnmem
  · intro li hli n hnmem hty
    constructor
    · rw [hn]
      exact hwf li hli n hnmem
    · rw [hfl li (List.mem_range.mpr hli)]
      intro hcon
      have hb := List.of_mem_filter hcon
      simp only [Bool.not_eq_true', decide_eq_false_iff_not] at hb
      exact hb hty

/-- A three-layer graph with one LONG_EDGE dummy (node 1) in the middle
layer: edge 0 runs from the east port of node 0 to the west port of the
dummy, edge 1 from the east port of the dummy to the west port of node
2; no junction points. -/
def cJG : JGraph :=
  { layers := [[0], [1], [2]],
    nodes := [⟨NodeType.normal, some 0, [0], [1]⟩,
              ⟨NodeType.longEdge, some 1, [2], [3]⟩,
              ⟨NodeType.normal, some 2, [4], [5]⟩],
    est := { ports := [⟨[], [], 0⟩, ⟨[], [0], 0⟩, ⟨[0], [], 0⟩,
                       ⟨[], [1], 0⟩, ⟨[1], [], 0⟩, ⟨[], [], 0⟩],
             edgeData := [⟨some 1, some 2, [], [], none⟩,
                          ⟨some 3, some 4, [], [], none⟩],
             edges := [0, 1] },
    unnecessaryBendpoints := false }

/-- The expected outcome on `cJG`: the dummy is gone from layer 1, its
node record (with `layer = some 1`) is untouched, edge 0 now ends at the
west port of node 2, and edge 1 is detached and removed. -/
def cJGres : JGraph :=
  { layers := [[0], [], [2]],
    nodes := [⟨NodeType.normal, some 0, [0], [1]⟩,
              ⟨NodeType.longEdge, some 1, [2], [3]⟩,
              ⟨NodeType.normal, some 2, [4], [5]⟩],
    est := { ports := [⟨[], [], 0⟩, ⟨[], [0], 0⟩, ⟨[], [], 0⟩,
                       ⟨[], [], 0⟩, ⟨[0], [], 0⟩, ⟨[], [], 0⟩],
             edgeData := [⟨some 1, some 4, [], [], none⟩,
                          ⟨none, none, [], [], none⟩],
             edges := [0] },
    unnecessaryBendpoints := false }

theorem cJG_process : process cJG = .ok cJGres := rfl

theorem cJG_wf : ∀ li, li < cJG.layers.length →
    ∀ n ∈ cJG.layers.getD li [],
      (cJG.nodes.getD n defaultJNode).layer = some li := by
  intro li hli
  have h3 : li < 3 := hli
  interval_cases li <;> decide

theorem C10_long_edge_joiner_witness :
    process cJG = .ok cJGres ∧
    (cJGres.nodes = cJG.nodes ∧
     (∀ li, ∀ n ∈ cJGres.layers.getD li [], typeOf cJGres n ≠ NodeType.longEdge) ∧
     ∀ li, li < cJG.layers.length → ∀ n ∈ cJG.layers.getD li [],
       typeOf cJG n = NodeType.longEdge →
         (cJGres.nodes.getD n defaultJNode).layer = some li ∧
           n ∉ cJGres.layers.getD li []) :=
  ⟨cJG_process, C10_long_edge_joiner cJG_wf cJG_process⟩

end LongEdgeJoiner

end LayeredGraphLayouter
